import Mathlib

/-!
# Verification of the ratify Azure Key Vault key-management provider

Shallow embedding of `pkg/keymanagementprovider/azurekeyvault/provider.go`
and of the refresher registry (`pkg/keymanagementprovider/refresh`), together
with proofs of the specification's claims about them.

Conventions of the embedding:
* Go `int` is modelled as `Int`; timestamps as `Int`.
* Go slice expressions with their runtime bounds checks are modelled by
  `goSlice`, which returns `none` exactly when Go would panic with a
  slice-bounds-out-of-range runtime error.
* Functions that can both fail (`error` returns) and panic are modelled
  with the `GoOutcome` type distinguishing `ok`, `fails` and `panics`.
* The vault client interfaces (`secretKVClient`, `certificateKVClient`,
  `keyKVClient`) are modelled as records of response functions; a paginated
  listing is modelled by its flattened outcome (either the concatenation of
  all pages' items or the first page error).
* External SDK/stdlib behaviour that the provider only observes through a
  narrow window (PEM decoding, JOSE key parsing, the HTTP error body) is
  modelled by data carrying the observable outcomes.
-/

/-- Go `strconv.FormatBool`. -/
def formatBool (b : Bool) : String := if b then "true" else "false"

/-- `types.KeyVaultValue`: one configured certificate/key entry
`{name, version, versionHistoryLimit}` (provider.go uses it for both). -/
structure KeyVaultValue where
  name : String
  version : String
  versionHistoryLimit : Int
deriving DecidableEq, Repr

/-- `types.KeyVaultValueVersion` (the `VersionInfo` shape used by
`fetchCertificateVersionHistory` / `fetchKeyVersionHistory`):
`{Version, Created, Enabled}`. The creation timestamp is modelled as `Int`. -/
structure KeyVaultValueVersion where
  version : String
  created : Int
  enabled : Bool
deriving DecidableEq, Repr

/-- `types.KeyVaultValueVersionHistory`: an ordered sequence of versions. -/
abbrev KeyVaultValueVersionHistory := List KeyVaultValueVersion

/-- Modelled from the spec: `types.KeyVaultValueVersionHistory.Sort` is not
under `src/` (only its caller is); the spec states a VersionHistory is
"sorted ascending by `createdAt` (oldest first)" before trimming, which this
stable comparison sort realises. -/
def sortVersionHistory (vh : KeyVaultValueVersionHistory) : KeyVaultValueVersionHistory :=
  vh.insertionSort (fun a b => a.created ≤ b.created)

/-- `keymanagementprovider.KMPMapKey`: `{Name, Version, Enabled}`.
Declared outside `src/`, but its shape is fully determined by its uses in
provider.go (struct literals with exactly these three fields). -/
structure KMPMapKey where
  name : String
  version : String
  enabled : Bool
deriving DecidableEq, Repr

/-- Go slice expression `l[lo:hi]` with its runtime bounds check:
defined (`some`) exactly when `0 ≤ lo ≤ hi ≤ len l`, otherwise Go panics
with "slice bounds out of range" (`none`). -/
def goSlice {α : Type} (l : List α) (lo hi : Int) : Option (List α) :=
  if 0 ≤ lo ∧ lo ≤ hi ∧ hi ≤ (l.length : Int) then
    some ((l.drop lo.toNat).take (hi - lo).toNat)
  else
    none

/-- The first-match search loop of `trimVersionHistory`
(`for i, v := range *versionHistory { if v.Version == version { versionIndex = i; break } }`,
starting from `versionIndex := -1`): index of the first entry with the
given version, or -1 when absent. -/
def findVersionIndex : KeyVaultValueVersionHistory → String → Int
  | [], _ => -1
  | v :: rest, version =>
    if v.version = version then 0
    else
      let r := findVersionIndex rest version
      if r = -1 then -1 else r + 1

/-- `trimVersionHistory(versionHistory, limit, version)` from provider.go.
`none` models the Go slice-bounds panic. -/
def trimVersionHistory (versionHistory : KeyVaultValueVersionHistory) (limit : Int)
    (version : String) : Option KeyVaultValueVersionHistory :=
  if version = "" then
    -- Ensure that the versionHistoryLimit is not greater than the number of versions
    let limit := if limit > (versionHistory.length : Int) then (versionHistory.length : Int) else limit
    -- Shorten the version history to the limit
    goSlice versionHistory ((versionHistory.length : Int) - limit) versionHistory.length
  else
    -- Find the index of the specified version
    let versionIndex := findVersionIndex versionHistory version
    -- Calculate the start index to include up to versionHistoryLimit older versions
    let start := versionIndex - limit
    let start := if start < 0 then 0 else start
    -- Create the slice including the specified version as the tail
    goSlice versionHistory start (versionIndex + 1)

/-- Go `strings.Split` with a single-character separator (the only form the
provider uses), as a kernel-computable function on the character list. -/
def splitChar (sep : Char) : List Char → List (List Char)
  | [] => [[]]
  | c :: cs =>
    let rest := splitChar sep cs
    if c = sep then [] :: rest
    else
      match rest with
      | [] => [[c]]
      | r :: rs => (c :: r) :: rs

/-- `getObjectVersion(id)`: split on "/" and take the last component.
(`strings.Split` never yields an empty list, so `getLastD` is exact.) -/
def getObjectVersion (id : String) : String :=
  let splitID := splitChar '/' id.data
  String.mk (splitID.getLastD [])

/-- Outcome of a Go call that may return normally, return an error, or panic. -/
inductive GoOutcome (α : Type) where
  | ok (a : α)
  | fails (msg : String)
  | panics (msg : String)
deriving DecidableEq, Repr

/-- True iff the outcome is a normal return. -/
def GoOutcome.isOk {α : Type} : GoOutcome α → Bool
  | .ok _ => true
  | _ => false

/-- The observable content of the HTTP error-response body, as
`isSecretDisabledError` reads it: `io.ReadAll` may fail, `json.Unmarshal`
into the `AzureError` struct may fail, or it yields the outer `error.code`
and the nested `error.innererror.code` (the unused `message` field is
elided). -/
inductive ErrorBody where
  | readFailure
  | unparsable
  | parsed (code : String) (innerCode : String)
deriving DecidableEq, Repr

/-- A Go error returned by a vault client call: either an
`azcore.ResponseError` (the only shape `errors.As` matches) carrying the
HTTP status code and response body, or any other error. -/
inductive KVError where
  | responseError (statusCode : Int) (body : ErrorBody)
  | other (msg : String)
deriving DecidableEq, Repr

/-- The display string of the error (`%w` rendering); the provider only ever
wraps it into messages, never inspects it. -/
def KVError.message : KVError → String
  | .responseError statusCode _ => "HTTP status " ++ toString statusCode
  | .other msg => msg

/-- `isSecretDisabledError(err)` from provider.go: requires an
`azcore.ResponseError` with status 403, a readable body, a JSON body parsing
into the `AzureError` struct, outer code `"Forbidden"` and nested inner code
`"SecretDisabled"`. -/
def isSecretDisabledError : KVError → Bool
  | .responseError statusCode body =>
    if statusCode ≠ 403 then false
    else
      match body with
      | .readFailure => false
      | .unparsable => false
      | .parsed code innerCode => code = "Forbidden" && innerCode = "SecretDisabled"
  | .other _ => false

/-- An X.509 certificate, opaque to the provider's control flow. -/
structure X509Cert where
  certId : Nat
deriving DecidableEq, Repr

/-- A decoded public key, opaque to the provider's control flow. -/
structure PublicKey where
  keyId : Nat
deriving DecidableEq, Repr

instance {ε α : Type} [DecidableEq ε] [DecidableEq α] : DecidableEq (Except ε α) := fun x y =>
  match x, y with
  | .ok a, .ok b =>
    if h : a = b then isTrue (congrArg Except.ok h)
    else isFalse (fun hc => h (Except.ok.inj hc))
  | .error a, .error b =>
    if h : a = b then isTrue (congrArg Except.error h)
    else isFalse (fun hc => h (Except.error.inj hc))
  | .ok _, .error _ => isFalse (fun hc => Except.noConfusion hc)
  | .error _, .ok _ => isFalse (fun hc => Except.noConfusion hc)

/-- One PEM block as seen by the `pem.Decode` walk in
`getCertsFromSecretBundle`, carrying the only observations the code makes:
its type line, and for CERTIFICATE blocks the result of
`keymanagementprovider.DecodeCertificates` on the re-encoded block.
`DecodeCertificates` itself is not under `src/`; modelled from the spec:
"certificate blocks are decoded into one or more X.509 certificates (a
single PEM block may encode a chain)" or fail. -/
inductive PemBlock where
  | privateKey
  | certificate (decoded : Except String (List X509Cert))
  | unknown (blockType : String)
deriving DecidableEq, Repr

/-- The `pem.Decode` view of a byte stream: the successive blocks found, and
whether undecodable bytes remain after the final block (Go's
`block == nil && len(rest) > 0` check; bytes of a block-free stream are
skipped by the initial decode and never reach that check). -/
structure PemStream where
  blocks : List PemBlock
  trailing : Bool
deriving DecidableEq, Repr

/-- The PKCS#12 view of the secret value: `base64.StdEncoding.DecodeString`
may fail, `pkcs12.ToPEM` may fail, or the conversion yields PEM blocks
(whose re-encoding by `pem.EncodeToMemory` decodes back with no trailing
garbage). -/
inductive Pkcs12View where
  | base64Failure
  | toPemFailure
  | blocks (bs : List PemBlock)
deriving DecidableEq, Repr

/-- The raw secret value string, abstracted by the two decodings the
provider can apply to it. -/
structure SecretValue where
  asPem : PemStream
  asPkcs12 : Pkcs12View
deriving DecidableEq, Repr

/-- `azsecrets.SecretAttributes`, restricted to the read field. -/
structure SecretAttributes where
  enabled : Option Bool
deriving DecidableEq, Repr

/-- `azsecrets.SecretBundle`, restricted to the read fields; `Option`
models the SDK's nilable pointers. -/
structure SecretBundle where
  attributes : Option SecretAttributes
  contentType : Option String
  value : Option SecretValue
  id : Option String
deriving DecidableEq, Repr

/-- `isValidSecretBundle(secretBundle)`: Attributes, Attributes.Enabled,
ContentType, Value and ID must all be non-nil. -/
def isValidSecretBundle (secretBundle : SecretBundle) : Bool :=
  secretBundle.attributes.isSome &&
    (secretBundle.attributes.bind (·.enabled)).isSome &&
    secretBundle.contentType.isSome &&
    secretBundle.value.isSome &&
    secretBundle.id.isSome

/-- One per-object status entry, as built by `getStatusProperty`: a
four-entry `map[string]string` with fixed keys, modelled as a record; the
enabled flag is stored through `strconv.FormatBool`. -/
structure StatusProperty where
  name : String
  version : String
  enabled : String
  lastRefreshed : String
deriving DecidableEq, Repr

/-- `getStatusProperty(name, version, lastRefreshed, enabled)`. -/
def getStatusProperty (name version lastRefreshed : String) (enabled : Bool) : StatusProperty :=
  { name := name, version := version, enabled := formatBool enabled, lastRefreshed := lastRefreshed }

/-- `PKCS12ContentType` constant. -/
def PKCS12ContentType : String := "application/x-pkcs12"

/-- `PEMContentType` constant. -/
def PEMContentType : String := "application/x-pem-file"

/-- The unsupported-content-type error message of `getCertsFromSecretBundle`
(the ratify error wrapper is reduced to its detail string). -/
def unsupportedContentTypeMsg (certName version contentType : String) : String :=
  "certificate " ++ certName ++ " version " ++ version ++
    ", unsupported secret content type " ++ contentType ++
    ", supported type are " ++ PKCS12ContentType ++ " and " ++ PEMContentType

/-- The PEM walk of `getCertsFromSecretBundle`: process each decoded block
in order, accumulating certificates and status entries; after the final
block, trailing undecodable bytes are a hard error. An initially empty
block list never enters the loop, so trailing bytes are then ignored. -/
def processPemBlocks (certName version lastRefreshed : String) (enabled : Bool)
    (trailing : Bool) : List PemBlock → List X509Cert → List StatusProperty →
    GoOutcome (List X509Cert × List StatusProperty)
  | [], results, certsStatus => .ok (results, certsStatus)
  | block :: rest, results, certsStatus =>
    match block with
    | .privateKey =>
      -- private key skipped with a warning
      if rest.isEmpty && trailing then
        .fails ("certificate '" ++ certName ++ "', version '" ++ version ++
          "': azure keyvault key management provider error, block is nil and remaining block to parse > 0")
      else
        processPemBlocks certName version lastRefreshed enabled trailing rest results certsStatus
    | .certificate decoded =>
      match decoded with
      | .error _ =>
        .fails ("azure keyvault key management provider: failed to decode Certificate " ++
          certName ++ ", version " ++ version)
      | .ok decodedCerts =>
        let results := results ++ decodedCerts
        let certsStatus := certsStatus ++
          decodedCerts.map (fun _ => getStatusProperty certName version lastRefreshed enabled)
        if rest.isEmpty && trailing then
          .fails ("certificate '" ++ certName ++ "', version '" ++ version ++
            "': azure keyvault key management provider error, block is nil and remaining block to parse > 0")
        else
          processPemBlocks certName version lastRefreshed enabled trailing rest results certsStatus
    | .unknown _ =>
      -- unknown block type skipped with a warning
      if rest.isEmpty && trailing then
        .fails ("certificate '" ++ certName ++ "', version '" ++ version ++
          "': azure keyvault key management provider error, block is nil and remaining block to parse > 0")
      else
        processPemBlocks certName version lastRefreshed enabled trailing rest results certsStatus

/-- `getCertsFromSecretBundle(ctx, secretBundle, certName, enabled)`: check
the declared content type, decode PKCS#12 content to PEM if needed, then
walk the PEM blocks. `now` stands for the `time.Now()` read that stamps the
status entries. The nil-pointer dereferences on an unguarded bundle are
modelled as panics. -/
def getCertsFromSecretBundle (secretBundle : SecretBundle) (certName : String)
    (enabled : Bool) (now : String) : GoOutcome (List X509Cert × List StatusProperty) :=
  match secretBundle.id, secretBundle.contentType, secretBundle.value with
  | some id, some contentType, some value =>
    let version := getObjectVersion id
    if contentType ≠ PKCS12ContentType && contentType ≠ PEMContentType then
      .fails (unsupportedContentTypeMsg certName version contentType)
    else
      let lastRefreshed := now
      let streamResult : GoOutcome PemStream :=
        if contentType = PKCS12ContentType then
          match value.asPkcs12 with
          | .base64Failure =>
            .fails ("azure keyvault key management provider: failed to decode PKCS12 Value. Certificate " ++
              certName ++ ", version " ++ version)
          | .toPemFailure =>
            .fails ("azure keyvault key management provider: failed to convert PKCS12 Value to PEM. Certificate " ++
              certName ++ ", version " ++ version)
          | .blocks bs => .ok { blocks := bs, trailing := false }
        else
          .ok value.asPem
      match streamResult with
      | .fails m => .fails m
      | .panics m => .panics m
      | .ok stream =>
        processPemBlocks certName version lastRefreshed enabled stream.trailing stream.blocks [] []
  | _, _, _ => .panics "invalid memory address or nil pointer dereference"


/-- `azcertificates.CertificateAttributes`, restricted to the read field. -/
structure CertificateAttributes where
  enabled : Option Bool
deriving DecidableEq, Repr

/-- `azcertificates.CertificateBundle`, restricted to the read fields. -/
structure CertificateBundle where
  attributes : Option CertificateAttributes
  id : Option String
deriving DecidableEq, Repr

/-- `isValidCertificateBundle(certBundle)`: Attributes, Attributes.Enabled
and ID must all be non-nil. -/
def isValidCertificateBundle (certBundle : CertificateBundle) : Bool :=
  certBundle.attributes.isSome &&
    (certBundle.attributes.bind (·.enabled)).isSome &&
    certBundle.id.isSome

/-- The `Created`/`Enabled` attributes of a listed certificate version. -/
structure CertificateItemAttributes where
  created : Option Int
  enabled : Option Bool
deriving DecidableEq, Repr

/-- `azcertificates.CertificateItem` as produced by the version-listing
pager, restricted to the read fields. -/
structure CertificateItem where
  id : Option String
  attributes : Option CertificateItemAttributes
deriving DecidableEq, Repr

/-- `isValidCertificateItem(cert)`: ID, Attributes, Attributes.Created and
Attributes.Enabled must all be non-nil. -/
def isValidCertificateItem (cert : CertificateItem) : Bool :=
  cert.id.isSome &&
    cert.attributes.isSome &&
    (cert.attributes.bind (·.created)).isSome &&
    (cert.attributes.bind (·.enabled)).isSome

/-- `azkeys.KeyAttributes`, restricted to the read field. -/
structure KeyAttributes where
  enabled : Option Bool
deriving DecidableEq, Repr

/-- `azkeys.JSONWebKey`, restricted to the observations the provider makes:
the key identifier, the key type, and the end result of the JOSE decoding.
`parsedKey` is modelled from the spec: "a JSON Web Key payload with an
HSM-backed key type is normalized to its non-HSM equivalent type before
re-serialization, then decoded into a standard public-key representation"
(`json.Marshal` + `jose.JSONWebKey.UnmarshalJSON`), which either fails or
yields the public key. -/
structure JSONWebKey where
  kid : Option String
  kty : Option String
  parsedKey : Except String PublicKey
deriving DecidableEq, Repr

/-- `azkeys.KeyBundle`, restricted to the read fields. -/
structure KeyBundle where
  key : Option JSONWebKey
  attributes : Option KeyAttributes
deriving DecidableEq, Repr

/-- `isValidKeyBundle(keyBundle)`: Attributes and Attributes.Enabled must be
non-nil (the key itself is not checked here). -/
def isValidKeyBundle (keyBundle : KeyBundle) : Bool :=
  keyBundle.attributes.isSome && (keyBundle.attributes.bind (·.enabled)).isSome

/-- The `Created`/`Enabled` attributes of a listed key version. -/
structure KeyItemAttributes where
  created : Option Int
  enabled : Option Bool
deriving DecidableEq, Repr

/-- `azkeys.KeyItem` as produced by the version-listing pager, restricted to
the read fields. -/
structure KeyItem where
  kid : Option String
  attributes : Option KeyItemAttributes
deriving DecidableEq, Repr

/-- `isValidKeyItem(key)`: KID, Attributes, Attributes.Created and
Attributes.Enabled must all be non-nil. -/
def isValidKeyItem (key : KeyItem) : Bool :=
  key.kid.isSome &&
    key.attributes.isSome &&
    (key.attributes.bind (·.created)).isSome &&
    (key.attributes.bind (·.enabled)).isSome

/-- `getKeyFromKeyBundle(keyBundle)`: nil key or nil key type are hard
errors; otherwise the JOSE round trip decides the outcome. -/
def getKeyFromKeyBundle (keyBundle : KeyBundle) : GoOutcome PublicKey :=
  match keyBundle.key with
  | none => .fails "found invalid key bundle, key must not be nil"
  | some webKey =>
    match webKey.kty with
    | none => .fails "found invalid key bundle, keytype must not be nil"
    | some _ =>
      match webKey.parsedKey with
      | .error m => .fails m
      | .ok k => .ok k

/-- The three vault clients (`secretKVClient`, `certificateKVClient`,
`keyKVClient`) of one provider instance, modelled as response functions.
A paginated version listing is modelled by its flattened outcome: the
concatenation of all pages' items, or the first page error. -/
structure AKVClient where
  getSecret : String → String → Except KVError SecretBundle
  getCertificate : String → String → Except KVError CertificateBundle
  getKey : String → String → Except KVError KeyBundle
  listCertificateVersions : String → Except KVError (List CertificateItem)
  listKeyVersions : String → Except KVError (List KeyItem)

/-- `fetchCertificateVersionHistory(ctx, certName)`: page through the
certificate versions, skip invalid items, then sort ascending by creation
time. -/
def fetchCertificateVersionHistory (client : AKVClient) (certName : String) :
    Except String KeyVaultValueVersionHistory :=
  match client.listCertificateVersions certName with
  | .error e =>
    .error ("failed to get certificate versions for objectName:" ++ certName ++
      ", error: " ++ e.message)
  | .ok items =>
    let versionHistory := items.filterMap fun cert =>
      if isValidCertificateItem cert then
        some { version := getObjectVersion (cert.id.getD "")
               created := (cert.attributes.bind (·.created)).getD 0
               enabled := (cert.attributes.bind (·.enabled)).getD false
               : KeyVaultValueVersion }
      else none
    .ok (sortVersionHistory versionHistory)

/-- `fetchKeyVersionHistory(ctx, keyName)`: page through the key versions,
skip invalid items, then sort ascending by creation time. -/
def fetchKeyVersionHistory (client : AKVClient) (keyName : String) :
    Except String KeyVaultValueVersionHistory :=
  match client.listKeyVersions keyName with
  | .error e =>
    .error ("failed to get key versions for objectName:" ++ keyName ++
      ", error: " ++ e.message)
  | .ok items =>
    let versionHistory := items.filterMap fun key =>
      if isValidKeyItem key then
        some { version := getObjectVersion (key.kid.getD "")
               created := (key.attributes.bind (·.created)).getD 0
               enabled := (key.attributes.bind (·.enabled)).getD false
               : KeyVaultValueVersion }
      else none
    .ok (sortVersionHistory versionHistory)

/-- Go map assignment `m[k] = v` on an association-list model of the map:
replace the binding if the key is present, append it otherwise. -/
def mapSet {α : Type} (m : List (KMPMapKey × α)) (k : KMPMapKey) (v : α) :
    List (KMPMapKey × α) :=
  if m.any (fun p => p.1 = k) then m.map (fun p => if p.1 = k then (k, v) else p)
  else m ++ [(k, v)]

/-- The mutable context of one `GetCertificates` call: the `certsMap` and
`certsStatus` accumulators, plus the log of targeted delete calls issued to
the Shared Store. `DeleteCertificateFromMap` is not under `src/`; modelled
from the spec: a disabled result must "remove the corresponding MapKey from
the Shared Store" ("targeted delete-by-key"), so the embedding records each
delete call with the MapKey it targets. -/
structure CertFetchState where
  certsMap : List (KMPMapKey × List X509Cert)
  certsStatus : List StatusProperty
  deleteCalls : List KMPMapKey
deriving DecidableEq, Repr

/-- `handleDisabledSecret(ctx, keyVaultCert, certsStatus, startTime)`: fall
back to the certificate-metadata endpoint, record a status entry for the
resolved version and delete its MapKey from the Shared Store. -/
def handleDisabledSecret (client : AKVClient) (keyVaultCert : KeyVaultValue)
    (st : CertFetchState) (startTime : String) : GoOutcome CertFetchState :=
  match client.getCertificate keyVaultCert.name keyVaultCert.version with
  | .error e =>
    .fails ("failed to get certificate objectName:" ++ keyVaultCert.name ++
      ", objectVersion:" ++ keyVaultCert.version ++ ", error: " ++ e.message)
  | .ok certResponse =>
    if isValidCertificateBundle certResponse = false then
      -- invalid certificate bundle: logged and skipped
      .ok st
    else
      let version := getObjectVersion (certResponse.id.getD "")
      let isEnabled := (certResponse.attributes.bind (·.enabled)).getD false
      let lastRefreshed := startTime
      let certProperty := getStatusProperty keyVaultCert.name version lastRefreshed isEnabled
      let mapKey : KMPMapKey := { name := keyVaultCert.name, version := version, enabled := isEnabled }
      .ok { st with
            certsStatus := st.certsStatus ++ [certProperty]
            deleteCalls := st.deleteCalls ++ [mapKey] }

/-- `processCertificateVersion(ctx, keyVaultCert, certsMap, certsStatus,
startTime)`: the `versionHistoryLimit == 0` certificate path. `startTime`
and `now` stand for the two wall-clock reads. -/
def processCertificateVersion (client : AKVClient) (keyVaultCert : KeyVaultValue)
    (st : CertFetchState) (startTime now : String) : GoOutcome CertFetchState :=
  match client.getSecret keyVaultCert.name keyVaultCert.version with
  | .error e =>
    if isSecretDisabledError e = false then
      .fails ("failed to get secret objectName:" ++ keyVaultCert.name ++
        ", objectVersion:" ++ keyVaultCert.version ++ ", error: " ++ e.message)
    else
      handleDisabledSecret client keyVaultCert st startTime
  | .ok secretBundle =>
    if isValidSecretBundle secretBundle = false then
      -- invalid secret bundle: logged and skipped
      .ok st
    else
      let isEnabled := (secretBundle.attributes.bind (·.enabled)).getD false
      let version := getObjectVersion (secretBundle.id.getD "")
      match getCertsFromSecretBundle secretBundle keyVaultCert.name isEnabled now with
      | .fails m => .fails ("failed to get certificates from secret bundle:" ++ m)
      | .panics m => .panics m
      | .ok (certResult, certProperty) =>
        let certMapKey : KMPMapKey :=
          { name := keyVaultCert.name, version := version, enabled := isEnabled }
        .ok { st with
              certsStatus := st.certsStatus ++ certProperty
              certsMap := mapSet st.certsMap certMapKey certResult }

/-- The per-version loop of `processCertificateVersions`: disabled versions
get a status entry and a store delete; enabled versions are fetched,
validated, parsed and inserted. -/
def certVersionsLoop (client : AKVClient) (keyVaultCert : KeyVaultValue)
    (startTime now : String) : KeyVaultValueVersionHistory → CertFetchState →
    GoOutcome CertFetchState
  | [], st => .ok st
  | certVersion :: restVersions, st =>
    if certVersion.enabled = false then
      let lastRefreshed := startTime
      let certProperty := getStatusProperty keyVaultCert.name certVersion.version lastRefreshed false
      let mapKey : KMPMapKey :=
        { name := keyVaultCert.name, version := certVersion.version, enabled := false }
      certVersionsLoop client keyVaultCert startTime now restVersions
        { st with
          certsStatus := st.certsStatus ++ [certProperty]
          deleteCalls := st.deleteCalls ++ [mapKey] }
    else
      match client.getSecret keyVaultCert.name certVersion.version with
      | .error e =>
        .fails ("failed to get secret objectName:" ++ keyVaultCert.name ++
          ", objectVersion:" ++ certVersion.version ++ ", error: " ++ e.message)
      | .ok secretBundle =>
        if isValidSecretBundle secretBundle = false then
          -- invalid secret bundle: logged and skipped
          certVersionsLoop client keyVaultCert startTime now restVersions st
        else
          match getCertsFromSecretBundle secretBundle keyVaultCert.name certVersion.enabled now with
          | .fails m => .fails ("failed to get certificates from secret bundle:" ++ m)
          | .panics m => .panics m
          | .ok (certResult, certProperty) =>
            let certMapKey : KMPMapKey :=
              { name := keyVaultCert.name, version := certVersion.version
                enabled := certVersion.enabled }
            certVersionsLoop client keyVaultCert startTime now restVersions
              { st with
                certsStatus := st.certsStatus ++ certProperty
                certsMap := mapSet st.certsMap certMapKey certResult }

/-- `processCertificateVersions(ctx, keyVaultCert, certsMap, certsStatus,
startTime)`: the `versionHistoryLimit != 0` certificate path — fetch and
sort the version history, trim it, then process every remaining version.
An empty trimmed history is a warning, not an error. -/
def processCertificateVersions (client : AKVClient) (keyVaultCert : KeyVaultValue)
    (st : CertFetchState) (startTime now : String) : GoOutcome CertFetchState :=
  match fetchCertificateVersionHistory client keyVaultCert.name with
  | .error m =>
    .fails ("failed to fetch version history for certificate " ++ keyVaultCert.name ++ ": " ++ m)
  | .ok versionHistory =>
    match trimVersionHistory versionHistory keyVaultCert.versionHistoryLimit keyVaultCert.version with
    | none => .panics "runtime error: slice bounds out of range"
    | some versionHistory =>
      if versionHistory.isEmpty then
        -- no versions found: logged as a warning only
        .ok st
      else
        certVersionsLoop client keyVaultCert startTime now versionHistory st

/-- `processCertificate(ctx, keyVaultCert, certsMap, certsStatus)`: dispatch
on `versionHistoryLimit == 0`. -/
def processCertificate (client : AKVClient) (keyVaultCert : KeyVaultValue)
    (st : CertFetchState) (startTime now : String) : GoOutcome CertFetchState :=
  if keyVaultCert.versionHistoryLimit = 0 then
    processCertificateVersion client keyVaultCert st startTime now
  else
    processCertificateVersions client keyVaultCert st startTime now

/-- The mutable context of one `GetKeys` call, with the Shared Store delete
log modelled as for certificates (`DeleteKeyFromMap` is not under `src/`;
modelled from the spec's targeted delete-by-key). -/
structure KeyFetchState where
  keysMap : List (KMPMapKey × PublicKey)
  keysStatus : List StatusProperty
  deleteCalls : List KMPMapKey
deriving DecidableEq, Repr

/-- `processKeyVersion(ctx, keyVaultKey, keysMap, keysStatus, startTime)`:
the `versionHistoryLimit == 0` key path. The unguarded dereference of
`keyBundle.Key.KID` (the validity check does not cover the key itself) is
modelled as a panic. -/
def processKeyVersion (client : AKVClient) (keyVaultKey : KeyVaultValue)
    (st : KeyFetchState) (startTime now : String) : GoOutcome KeyFetchState :=
  match client.getKey keyVaultKey.name keyVaultKey.version with
  | .error e =>
    .fails ("failed to get key objectName:" ++ keyVaultKey.name ++
      ", objectVersion:" ++ keyVaultKey.version ++ ", error: " ++ e.message)
  | .ok keyBundle =>
    if isValidKeyBundle keyBundle = false then
      -- invalid key bundle: logged and skipped
      .ok st
    else
      let isEnabled := (keyBundle.attributes.bind (·.enabled)).getD false
      match keyBundle.key.bind (·.kid) with
      | none => .panics "invalid memory address or nil pointer dereference"
      | some kid =>
        let version := getObjectVersion kid
        if isEnabled = false then
          -- the key is disabled: remove it from the cache and update the status
          let lastRefreshed := startTime
          let properties := getStatusProperty keyVaultKey.name version lastRefreshed isEnabled
          let mapKey : KMPMapKey :=
            { name := keyVaultKey.name, version := version, enabled := isEnabled }
          .ok { st with
                keysStatus := st.keysStatus ++ [properties]
                deleteCalls := st.deleteCalls ++ [mapKey] }
        else
          match getKeyFromKeyBundle keyBundle with
          | .fails m => .fails ("failed to get key from key bundle:" ++ m)
          | .panics m => .panics m
          | .ok publicKey =>
            let mapKey : KMPMapKey :=
              { name := keyVaultKey.name, version := version, enabled := isEnabled }
            let properties := getStatusProperty keyVaultKey.name version now isEnabled
            .ok { st with
                  keysMap := mapSet st.keysMap mapKey publicKey
                  keysStatus := st.keysStatus ++ [properties] }

/-- The per-version loop of `processKeyVersions`: disabled versions get a
status entry and a store delete; enabled versions are fetched, validated,
parsed and inserted. -/
def keyVersionsLoop (client : AKVClient) (keyVaultKey : KeyVaultValue)
    (startTime now : String) : KeyVaultValueVersionHistory → KeyFetchState →
    GoOutcome KeyFetchState
  | [], st => .ok st
  | keyVersion :: restVersions, st =>
    if keyVersion.enabled = false then
      let lastRefreshed := startTime
      let properties := getStatusProperty keyVaultKey.name keyVersion.version lastRefreshed false
      let mapKey : KMPMapKey :=
        { name := keyVaultKey.name, version := keyVersion.version, enabled := false }
      keyVersionsLoop client keyVaultKey startTime now restVersions
        { st with
          keysStatus := st.keysStatus ++ [properties]
          deleteCalls := st.deleteCalls ++ [mapKey] }
    else
      match client.getKey keyVaultKey.name keyVersion.version with
      | .error e =>
        .fails ("failed to get key objectName:" ++ keyVaultKey.name ++
          ", objectVersion:" ++ keyVersion.version ++ ", error: " ++ e.message)
      | .ok keyBundle =>
        if isValidKeyBundle keyBundle = false then
          -- invalid key bundle: logged and skipped
          keyVersionsLoop client keyVaultKey startTime now restVersions st
        else
          match getKeyFromKeyBundle keyBundle with
          | .fails m => .fails ("failed to get key from key bundle:" ++ m)
          | .panics m => .panics m
          | .ok publicKey =>
            let mapKey : KMPMapKey :=
              { name := keyVaultKey.name, version := keyVersion.version
                enabled := keyVersion.enabled }
            let properties := getStatusProperty keyVaultKey.name keyVersion.version now keyVersion.enabled
            keyVersionsLoop client keyVaultKey startTime now restVersions
              { st with
                keysMap := mapSet st.keysMap mapKey publicKey
                keysStatus := st.keysStatus ++ [properties] }

/-- `processKeyVersions(ctx, keyVaultKey, keysMap, keysStatus, startTime)`:
the `versionHistoryLimit != 0` key path. -/
def processKeyVersions (client : AKVClient) (keyVaultKey : KeyVaultValue)
    (st : KeyFetchState) (startTime now : String) : GoOutcome KeyFetchState :=
  match fetchKeyVersionHistory client keyVaultKey.name with
  | .error m =>
    .fails ("failed to fetch version history for key " ++ keyVaultKey.name ++ ": " ++ m)
  | .ok versionHistory =>
    match trimVersionHistory versionHistory keyVaultKey.versionHistoryLimit keyVaultKey.version with
    | none => .panics "runtime error: slice bounds out of range"
    | some versionHistory =>
      if versionHistory.isEmpty then
        -- no versions found: logged as a warning only
        .ok st
      else
        keyVersionsLoop client keyVaultKey startTime now versionHistory st

/-- `processKey(ctx, keyVaultKey, keysMap, keysStatus)`: dispatch on
`versionHistoryLimit == 0`. -/
def processKey (client : AKVClient) (keyVaultKey : KeyVaultValue)
    (st : KeyFetchState) (startTime now : String) : GoOutcome KeyFetchState :=
  if keyVaultKey.versionHistoryLimit = 0 then
    processKeyVersion client keyVaultKey st startTime now
  else
    processKeyVersions client keyVaultKey st startTime now

/-- Modelled from the spec: the status-document keys `types.CertificatesStatus`
and `types.KeysStatus` are not under `src/`; the spec says the status
document is "keyed by material kind (\x22certificates\x22 or \x22keys\x22)". -/
def CertificatesStatus : String := "certificates"

/-- Modelled from the spec: see `CertificatesStatus`. -/
def KeysStatus : String := "keys"

/-- `keymanagementprovider.KeyManagementProviderStatus`: a map from the
material kind to its status entries, built with a single key per call. -/
abbrev StatusDoc := List (String × List StatusProperty)

/-- `getStatusMap(statusMap, contentType)`. -/
def getStatusMap (statusMap : List StatusProperty) (contentType : String) : StatusDoc :=
  [(contentType, statusMap)]

/-- The `for _, keyVaultCert := range s.certificates` loop of
`GetCertificates`, aborting on the first object error. -/
def runCertObjects (client : AKVClient) (startTime now : String) :
    List KeyVaultValue → CertFetchState → GoOutcome CertFetchState
  | [], st => .ok st
  | keyVaultCert :: rest, st =>
    match processCertificate client keyVaultCert st startTime now with
    | .fails m => .fails m
    | .panics m => .panics m
    | .ok st' => runCertObjects client startTime now rest st'

/-- `GetCertificates(ctx)`: process every configured certificate object and
return the certificates map together with the status document. A `fails`
outcome models Go's `return nil, nil, err`. The Shared Store delete calls
are side effects on the store, visible through `runCertObjects`. -/
def GetCertificates (client : AKVClient) (certificates : List KeyVaultValue)
    (startTime now : String) : GoOutcome (List (KMPMapKey × List X509Cert) × StatusDoc) :=
  match runCertObjects client startTime now certificates { certsMap := [], certsStatus := [], deleteCalls := [] } with
  | .fails m => .fails m
  | .panics m => .panics m
  | .ok st => .ok (st.certsMap, getStatusMap st.certsStatus CertificatesStatus)

/-- The `for _, keyVaultKey := range s.keys` loop of `GetKeys`, aborting on
the first object error. -/
def runKeyObjects (client : AKVClient) (startTime now : String) :
    List KeyVaultValue → KeyFetchState → GoOutcome KeyFetchState
  | [], st => .ok st
  | keyVaultKey :: rest, st =>
    match processKey client keyVaultKey st startTime now with
    | .fails m => .fails m
    | .panics m => .panics m
    | .ok st' => runKeyObjects client startTime now rest st'

/-- `GetKeys(ctx)`: process every configured key object and return the keys
map together with the status document. -/
def GetKeys (client : AKVClient) (keys : List KeyVaultValue)
    (startTime now : String) : GoOutcome (List (KMPMapKey × PublicKey) × StatusDoc) :=
  match runKeyObjects client startTime now keys { keysMap := [], keysStatus := [], deleteCalls := [] } with
  | .fails m => .fails m
  | .panics m => .panics m
  | .ok st => .ok (st.keysMap, getStatusMap st.keysStatus KeysStatus)

/-- A value of the generic `map[string]interface{}` refresher configuration:
either a string or some non-string value (whose identity is irrelevant to
the registry, which only applies the `.(string)` type assertion). -/
inductive ConfigValue where
  | str (s : String)
  | nonString (tag : Nat)
deriving DecidableEq, Repr

/-- The generic refresher configuration map. -/
abbrev RefresherConfig := List (String × ConfigValue)

/-- Go map read `config[key]` on the association-list model. -/
def configLookup (config : RefresherConfig) (key : String) : Option ConfigValue :=
  (config.find? (fun p => p.1 = key)).map (·.2)

/-- An object satisfying the `Refresher` capability, opaque here. -/
structure Refresher where
  refresherId : Nat
deriving DecidableEq, Repr

/-- `RefresherFactory`: `Create(config) -> (Refresher, error)`. -/
structure RefresherFactory where
  create : RefresherConfig → GoOutcome Refresher

/-- The package-level `refresherFactories` map. -/
abbrev RefresherRegistry := List (String × RefresherFactory)

/-- Go map read `refresherFactories[name]` on the association-list model. -/
def registryLookup (refresherFactories : RefresherRegistry) (name : String) :
    Option RefresherFactory :=
  (refresherFactories.find? (fun p => p.1 = name)).map (·.2)

/-- `refresh.Register(name, factory)`: panic on a nil factory or an
already-registered name, otherwise add the binding. A nil Go interface
value is modelled by `none`. -/
def Register (refresherFactories : RefresherRegistry) (name : String)
    (factory : Option RefresherFactory) : GoOutcome RefresherRegistry :=
  match factory with
  | none => .panics "refresher factory cannot be nil"
  | some f =>
    if (registryLookup refresherFactories name).isSome then
      .panics ("refresher factory named " ++ name ++ " already registered")
    else
      .ok (refresherFactories ++ [(name, f)])

/-- `refresh.CreateRefresherFromConfig(refresherConfig)`: pull the "type"
entry out with a string type assertion, reject a missing/non-string/empty
type and an unregistered type with typed errors, else call the factory. -/
def CreateRefresherFromConfig (refresherFactories : RefresherRegistry)
    (refresherConfig : RefresherConfig) : GoOutcome Refresher :=
  let asserted : Option String :=
    match configLookup refresherConfig "type" with
    | some (.str s) => some s
    | _ => none
  match asserted with
  | none => .fails "refresher type cannot be empty"
  | some refresherType =>
    if refresherType = "" then
      .fails "refresher type cannot be empty"
    else
      match registryLookup refresherFactories refresherType with
      | none => .fails ("refresher factory with name " ++ refresherType ++ " not found")
      | some factory => factory.create refresherConfig

/-- The spec's wording of the fallback trigger, stated as a second
definition for comparison with the code's `isSecretDisabledError`: "an HTTP
response error with status 403 whose body carries a nested inner error code
SecretDisabled" (no condition on the outer error code). -/
def specSecretDisabledSignature : KVError → Bool
  | .responseError statusCode body =>
    statusCode = 403 &&
      (match body with
       | .parsed _ innerCode => innerCode = "SecretDisabled"
       | _ => false)
  | .other _ => false

/-- A PEM secret value holding a single certificate block that decodes to
the one certificate `c`. -/
def pemCertValue (c : X509Cert) : SecretValue :=
  { asPem := { blocks := [.certificate (.ok [c])], trailing := false }
    asPkcs12 := .base64Failure }

/-- A valid PEM secret bundle for version "v1" whose enabled attribute is
`enabled`. -/
def pemBundle (enabled : Bool) : SecretBundle :=
  { attributes := some { enabled := some enabled }
    contentType := some PEMContentType
    value := some (pemCertValue { certId := 0 })
    id := some "v1" }

/-- A client every one of whose calls fails with a plain error. -/
def failingClient : AKVClient :=
  { getSecret := fun _ _ => .error (.other "err")
    getCertificate := fun _ _ => .error (.other "err")
    getKey := fun _ _ => .error (.other "err")
    listCertificateVersions := fun _ => .error (.other "err")
    listKeyVersions := fun _ => .error (.other "err") }

/-- A client whose secret endpoint always returns a valid, *disabled* PEM
bundle — the shape `GetSecret` would take if a vault reported a disabled
secret through a successful response instead of a 403. -/
def disabledSecretOkClient : AKVClient :=
  { failingClient with getSecret := fun _ _ => .ok (pemBundle false) }

/-- A client whose secret endpoint always fails with HTTP 403 and a body
whose nested inner error code is "SecretDisabled" but whose outer error
code is not "Forbidden". -/
def wrongOuterCodeClient : AKVClient :=
  { failingClient with
    getSecret := fun _ _ => .error (.responseError 403 (.parsed "OuterCode" "SecretDisabled")) }

/-- A client serving one enabled certificate and one enabled key, all calls
valid. -/
def healthyClient : AKVClient :=
  { getSecret := fun _ _ => .ok (pemBundle true)
    getCertificate := fun _ _ => .ok { attributes := some { enabled := some true }, id := some "v1" }
    getKey := fun _ _ =>
      .ok { key := some { kid := some "v1", kty := some "RSA", parsedKey := .ok { keyId := 7 } }
            attributes := some { enabled := some true } }
    listCertificateVersions := fun _ =>
      .ok [{ id := some "v1", attributes := some { created := some 1, enabled := some true } }]
    listKeyVersions := fun _ =>
      .ok [{ kid := some "v1", attributes := some { created := some 1, enabled := some true } }] }

/-! ## Helper lemmas -/

theorem goSlice_eq_of_le {α : Type} (l : List α) (lo hi : ℕ) (h1 : lo ≤ hi)
    (h2 : hi ≤ l.length) :
    goSlice l (lo : Int) (hi : Int) = some ((l.drop lo).take (hi - lo)) := by
  unfold goSlice
  rw [if_pos]
  · rw [Int.toNat_sub, Int.toNat_ofNat]
  · refine ⟨by positivity, ?_, ?_⟩ <;> exact_mod_cast (by omega)

theorem findVersionIndex_of_mem (version : String) :
    ∀ vh : KeyVaultValueVersionHistory, (∃ v ∈ vh, v.version = version) →
      ∃ n : ℕ, findVersionIndex vh version = (n : Int) ∧ n < vh.length ∧
        ∃ v, vh[n]? = some v ∧ v.version = version := by
  intro vh
  induction vh with
  | nil => rintro ⟨v, hv, _⟩; cases hv
  | cons a l ih =>
    rintro ⟨v, hv, hvv⟩
    by_cases ha : a.version = version
    · exact ⟨0, by simp [findVersionIndex, ha], by simp, a, by simp, ha⟩
    · have hvl : v ∈ l := by
        rcases List.mem_cons.mp hv with h | h
        · exact absurd (h ▸ hvv) ha
        · exact h
      obtain ⟨n, hfi, hlt, w, hw, hwv⟩ := ih ⟨v, hvl, hvv⟩
      refine ⟨n + 1, ?_, by simpa using hlt, w, by simpa using hw, hwv⟩
      simp only [findVersionIndex, if_neg ha, hfi]
      rw [if_neg (by omega)]
      push_cast
      ring

theorem findVersionIndex_of_not_mem (version : String) :
    ∀ vh : KeyVaultValueVersionHistory, (∀ v ∈ vh, v.version ≠ version) →
      findVersionIndex vh version = -1 := by
  intro vh
  induction vh with
  | nil => intro; rfl
  | cons a l ih =>
    intro h
    have ha : a.version ≠ version := h a (by simp)
    have hl := ih (fun v hv => h v (by simp [hv]))
    simp [findVersionIndex, if_neg ha, hl]

theorem getLast?_take_drop {α : Type} (l : List α) (s n : ℕ) (hs : s ≤ n)
    (hn : n < l.length) :
    ((l.drop s).take (n + 1 - s)).getLast? = l[n]? := by
  have hlen : ((l.drop s).take (n + 1 - s)).length = n + 1 - s := by
    rw [List.length_take, List.length_drop]
    omega
  rw [List.getLast?_eq_getElem?, hlen]
  have hidx : n + 1 - s - 1 = n - s := by omega
  rw [hidx, List.getElem?_take, if_pos (by omega), List.getElem?_drop]
  congr 1
  omega

/-- The uniform shape of the pinned-version window: starting index `n - k`
(ℕ subtraction clamps at 0 exactly like the `start < 0` guard). -/
theorem trimVersionHistory_pinned_eq (vh : KeyVaultValueVersionHistory)
    (limit : Int) (version : String) (hlim : 0 ≤ limit) (hver : version ≠ "")
    (n : ℕ) (hfi : findVersionIndex vh version = (n : Int)) (hn : n < vh.length) :
    trimVersionHistory vh limit version =
      some ((vh.drop (n - limit.toNat)).take (n + 1 - (n - limit.toNat))) := by
  obtain ⟨k, rfl⟩ : ∃ k : ℕ, limit = (k : Int) := ⟨limit.toNat, (Int.toNat_of_nonneg hlim).symm⟩
  have hstep : trimVersionHistory vh (k : Int) version =
      goSlice vh (if (n : Int) - (k : Int) < 0 then 0 else (n : Int) - (k : Int)) ((n : Int) + 1) := by
    unfold trimVersionHistory
    rw [if_neg hver, hfi]
  rw [hstep, Int.toNat_ofNat]
  by_cases hnk : (k : Int) ≤ (n : Int)
  · rw [if_neg (by omega)]
    have hc1 : (n : Int) - (k : Int) = ((n - k : ℕ) : Int) := by
      have : k ≤ n := by exact_mod_cast hnk
      omega
    have hc2 : (n : Int) + 1 = ((n + 1 : ℕ) : Int) := by push_cast; ring
    rw [hc1, hc2]
    exact goSlice_eq_of_le vh (n - k) (n + 1) (by omega) (by omega)
  · rw [if_pos (by omega)]
    have hkn : n < k := by omega
    have h0 : (0 : Int) = ((0 : ℕ) : Int) := rfl
    have h1 : (n : Int) + 1 = ((n + 1 : ℕ) : Int) := by push_cast; ring
    rw [h0, h1, goSlice_eq_of_le vh 0 (n + 1) (by omega) (by omega)]
    have hnk' : n - k = 0 := by omega
    rw [hnk']

/-! ## Claim theorems -/

/-- C3: for every version history, every limit ≥ 0 and every pinned version
occurring in the history, `trimVersionHistory` returns a window whose last
element is the (first) entry carrying the pinned version, whose length never
exceeds `limit + 1`, and which extends backward from that entry's index
(it is a suffix of the prefix of the history ending at the pinned entry,
clamped at index 0). -/
theorem trimVersionHistory_pinned_window (vh : KeyVaultValueVersionHistory)
    (limit : Int) (version : String) (hlim : 0 ≤ limit) (hver : version ≠ "")
    (hmem : ∃ v ∈ vh, v.version = version) :
    ∃ (w : KeyVaultValueVersionHistory) (n : ℕ),
      trimVersionHistory vh limit version = some w ∧
      n < vh.length ∧
      (∃ v, vh[n]? = some v ∧ v.version = version ∧ w.getLast? = some v) ∧
      (w.length : Int) ≤ limit + 1 ∧
      (∃ s, vh.take (n + 1) = s ++ w) := by
  obtain ⟨n, hfi, hn, v, hv, hvv⟩ := findVersionIndex_of_mem version vh hmem
  have htrim := trimVersionHistory_pinned_eq vh limit version hlim hver n hfi hn
  set s := n - limit.toNat with hs
  refine ⟨(vh.drop s).take (n + 1 - s), n, htrim, hn, ⟨v, hv, hvv, ?_⟩, ?_, ?_⟩
  · rw [getLast?_take_drop vh s n (by omega) hn]
    exact hv
  · have hlen : ((vh.drop s).take (n + 1 - s)).length = n + 1 - s := by
      rw [List.length_take, List.length_drop]
      omega
    rw [hlen]
    have hk : (limit.toNat : Int) = limit := Int.toNat_of_nonneg hlim
    omega
  · refine ⟨(vh.take (n + 1)).take s, ?_⟩
    rw [← List.drop_take (n + 1) s vh]
    exact (List.take_append_drop s (vh.take (n + 1))).symm

/-- C3 witness: concrete three-entry history, limit 1, pinned middle version. -/
theorem trimVersionHistory_pinned_window_witness :
    ∃ (w : KeyVaultValueVersionHistory) (n : ℕ),
      trimVersionHistory [⟨"a", 1, true⟩, ⟨"b", 2, true⟩, ⟨"c", 3, false⟩] 1 "b" = some w ∧
      n < 3 ∧
      (∃ v, [(⟨"a", 1, true⟩ : KeyVaultValueVersion), ⟨"b", 2, true⟩, ⟨"c", 3, false⟩][n]? = some v ∧
        v.version = "b" ∧ w.getLast? = some v) ∧
      (w.length : Int) ≤ 1 + 1 ∧
      (∃ s, [(⟨"a", 1, true⟩ : KeyVaultValueVersion), ⟨"b", 2, true⟩, ⟨"c", 3, false⟩].take (n + 1) = s ++ w) := by
  have h := trimVersionHistory_pinned_window
    [⟨"a", 1, true⟩, ⟨"b", 2, true⟩, ⟨"c", 3, false⟩] 1 "b"
    (by decide) (by decide) ⟨⟨"b", 2, true⟩, by decide, by decide⟩
  simpa using h

/-- With no pinned version and a non-negative limit, trimming keeps the last
`min(limit, len)` entries. -/
theorem trimVersionHistory_empty_version (l : KeyVaultValueVersionHistory)
    (limit : Int) (hlim : 0 ≤ limit) :
    trimVersionHistory l limit "" =
      some (l.drop (l.length - min limit.toNat l.length)) := by
  obtain ⟨k, rfl⟩ : ∃ k : ℕ, limit = (k : Int) := ⟨limit.toNat, (Int.toNat_of_nonneg hlim).symm⟩
  rw [Int.toNat_ofNat]
  have hstep : trimVersionHistory l (k : Int) "" =
      goSlice l ((l.length : Int) -
        (if (k : Int) > (l.length : Int) then (l.length : Int) else (k : Int)))
        (l.length : Int) := by
    unfold trimVersionHistory
    rw [if_pos rfl]
  rw [hstep]
  by_cases hk : (k : Int) > (l.length : Int)
  · rw [if_pos hk, sub_self]
    have h0 : (0 : Int) = ((0 : ℕ) : Int) := rfl
    rw [h0, goSlice_eq_of_le l 0 l.length (by omega) (by omega)]
    have hmin : min k l.length = l.length := by
      have : l.length < k := by exact_mod_cast hk
      omega
    rw [hmin]
    simp [List.take_of_length_le]
  · rw [if_neg hk]
    have hkl : k ≤ l.length := by
      have : ¬ (l.length : Int) < k := hk
      exact_mod_cast not_lt.mp this
    have hc : (l.length : Int) - (k : Int) = ((l.length - k : ℕ) : Int) := by omega
    rw [hc, goSlice_eq_of_le l (l.length - k) l.length (by omega) (by omega)]
    have hmin : min k l.length = k := by omega
    rw [hmin]
    congr 1
    have hlen : (l.drop (l.length - k)).length = k := by
      rw [List.length_drop]
      omega
    calc (l.drop (l.length - k)).take (l.length - (l.length - k))
        = (l.drop (l.length - k)).take k := by congr 1; omega
      _ = l.drop (l.length - k) := by
          rw [List.take_of_length_le (by rw [hlen])]

/-- C4: on a non-empty history, sorting then trimming with
`limit = len(history)` and no pinned version returns the entire sorted
sequence unchanged; more generally, with no pinned version and limit ≥ 0
the result is the last `min(limit, len)` entries of the sorted sequence. -/
theorem trimVersionHistory_no_pin_full (h : KeyVaultValueVersionHistory)
    (limit : Int) (hlim : 0 ≤ limit) (_hne : h ≠ []) :
    trimVersionHistory (sortVersionHistory h) limit "" =
      some ((sortVersionHistory h).drop
        ((sortVersionHistory h).length - min limit.toNat (sortVersionHistory h).length)) ∧
    (limit = (h.length : Int) →
      trimVersionHistory (sortVersionHistory h) limit "" = some (sortVersionHistory h)) := by
  refine ⟨trimVersionHistory_empty_version _ limit hlim, fun hlen => ?_⟩
  rw [trimVersionHistory_empty_version _ limit hlim]
  have hsl : (sortVersionHistory h).length = h.length := by
    unfold sortVersionHistory
    exact List.length_insertionSort _ h
  have hval : limit.toNat = h.length := by omega
  rw [hval, hsl, min_self, Nat.sub_self, List.drop_zero]

/-- C4 witness: concrete two-entry history with `limit = 2`. -/
theorem trimVersionHistory_no_pin_full_witness :
    trimVersionHistory (sortVersionHistory [⟨"b", 2, true⟩, ⟨"a", 1, false⟩]) 2 "" =
      some ((sortVersionHistory [⟨"b", 2, true⟩, ⟨"a", 1, false⟩]).drop
        ((sortVersionHistory [⟨"b", 2, true⟩, ⟨"a", 1, false⟩]).length -
          min (Int.toNat 2) (sortVersionHistory [⟨"b", 2, true⟩, ⟨"a", 1, false⟩]).length)) ∧
    trimVersionHistory (sortVersionHistory [⟨"b", 2, true⟩, ⟨"a", 1, false⟩]) 2 "" =
      some (sortVersionHistory [⟨"b", 2, true⟩, ⟨"a", 1, false⟩]) := by
  have h := trimVersionHistory_no_pin_full [⟨"b", 2, true⟩, ⟨"a", 1, false⟩] 2
    (by decide) (by decide)
  exact ⟨h.1, h.2 (by decide)⟩

/-- C9: `trimVersionHistory` is not total in its limit argument — with no
pinned version and a negative limit the upper clamp does not fire, the
computed start index exceeds the history length, and the Go slice panics;
and any `versionHistoryLimit < 0` is routed to the version-history path
(only 0 selects the single-version path), where the panic surfaces through
`processCertificate` (resp. `processKey`). -/
theorem trimVersionHistory_negative_limit_panics (vh : KeyVaultValueVersionHistory)
    (limit : Int) (_hne : vh ≠ []) (hneg : limit < 0) :
    trimVersionHistory vh limit "" = none ∧
    (∀ client keyVaultCert st startTime now,
      keyVaultCert.versionHistoryLimit = limit →
      processCertificate client keyVaultCert st startTime now =
        processCertificateVersions client keyVaultCert st startTime now) ∧
    (∀ client keyVaultKey st startTime now,
      keyVaultKey.versionHistoryLimit = limit →
      processKey client keyVaultKey st startTime now =
        processKeyVersions client keyVaultKey st startTime now) ∧
    (∀ client (keyVaultCert : KeyVaultValue) st startTime now,
      keyVaultCert.versionHistoryLimit = limit → keyVaultCert.version = "" →
      fetchCertificateVersionHistory client keyVaultCert.name = .ok vh →
      processCertificate client keyVaultCert st startTime now =
        .panics "runtime error: slice bounds out of range") := by
  have htrim : trimVersionHistory vh limit "" = none := by
    have hstep : trimVersionHistory vh limit "" =
        goSlice vh ((vh.length : Int) -
          (if limit > (vh.length : Int) then (vh.length : Int) else limit))
          (vh.length : Int) := by
      unfold trimVersionHistory
      rw [if_pos rfl]
    rw [hstep, if_neg (by omega)]
    unfold goSlice
    rw [if_neg (by omega)]
  refine ⟨htrim, ?_, ?_, ?_⟩
  · intro client keyVaultCert st startTime now hl
    unfold processCertificate
    rw [if_neg (by omega)]
  · intro client keyVaultKey st startTime now hl
    unfold processKey
    rw [if_neg (by omega)]
  · intro client keyVaultCert st startTime now hl hv hfetch
    unfold processCertificate
    rw [if_neg (by omega)]
    unfold processCertificateVersions
    rw [hl, hv, hfetch]
    simp [htrim]

/-- C9 witness: a singleton history, limit -1, and a concrete client whose
listing yields exactly that history. -/
theorem trimVersionHistory_negative_limit_panics_witness :
    trimVersionHistory [⟨"v1", 1, true⟩] (-1) "" = none ∧
    processCertificate healthyClient ⟨"cert1", "", -1⟩
      { certsMap := [], certsStatus := [], deleteCalls := [] } "t" "n" =
      .panics "runtime error: slice bounds out of range" := by
  have h := trimVersionHistory_negative_limit_panics [⟨"v1", 1, true⟩] (-1)
    (by decide) (by decide)
  refine ⟨h.1, ?_⟩
  exact h.2.2.2 healthyClient ⟨"cert1", "", -1⟩
    { certsMap := [], certsStatus := [], deleteCalls := [] } "t" "n" rfl rfl (by decide)

/-- C10: when a non-empty pinned version does not occur in the history
(limit ≥ 0), `trimVersionHistory` returns the empty history, so
`processCertificateVersions` / `processKeyVersions` warn and return with the
state untouched — no map entries, no status entries, no store deletes — and
a whole fetch over such an object still succeeds. -/
theorem trimVersionHistory_absent_pinned (vh : KeyVaultValueVersionHistory)
    (limit : Int) (version : String) (hlim : 0 ≤ limit) (hver : version ≠ "")
    (habs : ∀ v ∈ vh, v.version ≠ version) :
    trimVersionHistory vh limit version = some [] ∧
    (∀ client (keyVaultCert : KeyVaultValue) st startTime now,
      keyVaultCert.version = version → keyVaultCert.versionHistoryLimit = limit →
      fetchCertificateVersionHistory client keyVaultCert.name = .ok vh →
      processCertificateVersions client keyVaultCert st startTime now = .ok st) ∧
    (∀ client (keyVaultKey : KeyVaultValue) st startTime now,
      keyVaultKey.version = version → keyVaultKey.versionHistoryLimit = limit →
      fetchKeyVersionHistory client keyVaultKey.name = .ok vh →
      processKeyVersions client keyVaultKey st startTime now = .ok st) ∧
    (∀ client (keyVaultCert : KeyVaultValue) startTime now,
      keyVaultCert.version = version → keyVaultCert.versionHistoryLimit = limit →
      limit ≠ 0 →
      fetchCertificateVersionHistory client keyVaultCert.name = .ok vh →
      GetCertificates client [keyVaultCert] startTime now =
        .ok ([], getStatusMap [] CertificatesStatus)) := by
  have hfi : findVersionIndex vh version = -1 := findVersionIndex_of_not_mem version vh habs
  have htrim : trimVersionHistory vh limit version = some [] := by
    have hstep : trimVersionHistory vh limit version =
        goSlice vh (if (-1 : Int) - limit < 0 then 0 else -1 - limit) ((-1 : Int) + 1) := by
      unfold trimVersionHistory
      rw [if_neg hver, hfi]
    rw [hstep, if_pos (by omega)]
    unfold goSlice
    rw [if_pos (by constructor <;> omega)]
    simp
  have hcert : ∀ client (keyVaultCert : KeyVaultValue) st startTime now,
      keyVaultCert.version = version → keyVaultCert.versionHistoryLimit = limit →
      fetchCertificateVersionHistory client keyVaultCert.name = .ok vh →
      processCertificateVersions client keyVaultCert st startTime now = .ok st := by
    intro client keyVaultCert st startTime now hv hl hfetch
    unfold processCertificateVersions
    rw [hv, hl, hfetch]
    simp [htrim]
  refine ⟨htrim, hcert, ?_, ?_⟩
  · intro client keyVaultKey st startTime now hv hl hfetch
    unfold processKeyVersions
    rw [hv, hl, hfetch]
    simp [htrim]
  · intro client keyVaultCert startTime now hv hl hnz hfetch
    unfold GetCertificates runCertObjects
    have hproc : processCertificate client keyVaultCert
        { certsMap := [], certsStatus := [], deleteCalls := [] } startTime now =
        .ok { certsMap := [], certsStatus := [], deleteCalls := [] } := by
      unfold processCertificate
      rw [if_neg (by omega)]
      exact hcert client keyVaultCert _ startTime now hv hl hfetch
    rw [hproc]
    rfl

/-- C10 witness: pinned version "zzz" absent from a singleton history. -/
theorem trimVersionHistory_absent_pinned_witness :
    trimVersionHistory [⟨"v1", 1, true⟩] 2 "zzz" = some [] ∧
    GetCertificates healthyClient [⟨"cert1", "zzz", 2⟩] "t" "n" =
      .ok ([], getStatusMap [] CertificatesStatus) := by
  have h := trimVersionHistory_absent_pinned [⟨"v1", 1, true⟩] 2 "zzz"
    (by decide) (by decide) (by decide)
  exact ⟨h.1, h.2.2.2 healthyClient ⟨"cert1", "zzz", 2⟩ "t" "n" rfl rfl (by decide) (by decide)⟩

/-- C5: a PEM secret value of one private-key block followed by two
certificate blocks (each decoding to one certificate) parses to exactly
those two certificates and exactly two status entries; the private-key block
is skipped without error and contributes neither. -/
theorem getCertsFromSecretBundle_private_key_skipped (c1 c2 : X509Cert)
    (attributes : Option SecretAttributes) (p12 : Pkcs12View)
    (id certName now : String) (enabled : Bool) :
    getCertsFromSecretBundle
      { attributes := attributes
        contentType := some PEMContentType
        value := some
          { asPem :=
              { blocks := [.privateKey, .certificate (.ok [c1]), .certificate (.ok [c2])]
                trailing := false }
            asPkcs12 := p12 }
        id := some id }
      certName enabled now =
      .ok ([c1, c2],
        [getStatusProperty certName (getObjectVersion id) now enabled,
         getStatusProperty certName (getObjectVersion id) now enabled]) := by
  rfl

/-- C6: any declared content type other than the two supported ones makes
`getCertsFromSecretBundle` fail with an error naming the offending type and
both supported types (each appears verbatim in the message), returning no
certificates and no status entries. -/
theorem getCertsFromSecretBundle_unsupported_content_type
    (attributes : Option SecretAttributes) (value : SecretValue)
    (id contentType certName now : String) (enabled : Bool)
    (h1 : contentType ≠ PKCS12ContentType) (h2 : contentType ≠ PEMContentType) :
    getCertsFromSecretBundle
      { attributes := attributes, contentType := some contentType
        value := some value, id := some id } certName enabled now =
      .fails (unsupportedContentTypeMsg certName (getObjectVersion id) contentType) ∧
    (∃ s t, (unsupportedContentTypeMsg certName (getObjectVersion id) contentType).data =
      s ++ contentType.data ++ t) ∧
    (∃ s t, (unsupportedContentTypeMsg certName (getObjectVersion id) contentType).data =
      s ++ PKCS12ContentType.data ++ t) ∧
    (∃ s t, (unsupportedContentTypeMsg certName (getObjectVersion id) contentType).data =
      s ++ PEMContentType.data ++ t) := by
  refine ⟨?_, ?_, ?_, ?_⟩
  · simp [getCertsFromSecretBundle, h1, h2]
  · exact ⟨("certificate " ++ certName ++ " version " ++ getObjectVersion id ++
        ", unsupported secret content type ").data,
      (", supported type are " ++ PKCS12ContentType ++ " and " ++ PEMContentType).data,
      by simp [unsupportedContentTypeMsg, String.data_append, List.append_assoc]⟩
  · exact ⟨("certificate " ++ certName ++ " version " ++ getObjectVersion id ++
        ", unsupported secret content type " ++ contentType ++ ", supported type are ").data,
      (" and " ++ PEMContentType).data,
      by simp [unsupportedContentTypeMsg, String.data_append, List.append_assoc]⟩
  · exact ⟨("certificate " ++ certName ++ " version " ++ getObjectVersion id ++
        ", unsupported secret content type " ++ contentType ++ ", supported type are " ++
        PKCS12ContentType ++ " and ").data,
      ([] : List Char),
      by simp [unsupportedContentTypeMsg, String.data_append, List.append_assoc]⟩

/-- C6 witness: content type "text/plain". -/
theorem getCertsFromSecretBundle_unsupported_content_type_witness :
    getCertsFromSecretBundle
      { attributes := some { enabled := some true }, contentType := some "text/plain"
        value := some (pemCertValue { certId := 0 }), id := some "v1" } "cert1" true "n" =
      .fails (unsupportedContentTypeMsg "cert1" (getObjectVersion "v1") "text/plain") ∧
    (∃ s t, (unsupportedContentTypeMsg "cert1" (getObjectVersion "v1") "text/plain").data =
      s ++ "text/plain".data ++ t) ∧
    (∃ s t, (unsupportedContentTypeMsg "cert1" (getObjectVersion "v1") "text/plain").data =
      s ++ PKCS12ContentType.data ++ t) ∧
    (∃ s t, (unsupportedContentTypeMsg "cert1" (getObjectVersion "v1") "text/plain").data =
      s ++ PEMContentType.data ++ t) :=
  getCertsFromSecretBundle_unsupported_content_type
    (some { enabled := some true }) (pemCertValue { certId := 0 }) "v1" "text/plain"
    "cert1" "n" true (by decide) (by decide)

/-- C8: `Register` panics on a nil factory and on a duplicate name, while
`CreateRefresherFromConfig` returns typed errors (never a panic): the
"refresher type cannot be empty" error when the "type" entry is absent,
non-string or empty, and the "not found" error when no factory is
registered under the type. -/
theorem refresher_registry_contract :
    (∀ refresherFactories name,
      Register refresherFactories name none = .panics "refresher factory cannot be nil") ∧
    (∀ refresherFactories name f f', registryLookup refresherFactories name = some f →
      Register refresherFactories name (some f') =
        .panics ("refresher factory named " ++ name ++ " already registered")) ∧
    (∀ refresherFactories config, configLookup config "type" = none →
      CreateRefresherFromConfig refresherFactories config = .fails "refresher type cannot be empty") ∧
    (∀ refresherFactories config tag, configLookup config "type" = some (.nonString tag) →
      CreateRefresherFromConfig refresherFactories config = .fails "refresher type cannot be empty") ∧
    (∀ refresherFactories config, configLookup config "type" = some (.str "") →
      CreateRefresherFromConfig refresherFactories config = .fails "refresher type cannot be empty") ∧
    (∀ refresherFactories config refresherType,
      configLookup config "type" = some (.str refresherType) → refresherType ≠ "" →
      registryLookup refresherFactories refresherType = none →
      CreateRefresherFromConfig refresherFactories config =
        .fails ("refresher factory with name " ++ refresherType ++ " not found")) := by
  refine ⟨fun _ _ => rfl, ?_, ?_, ?_, ?_, ?_⟩
  · intro refresherFactories name f f' hlook
    simp [Register, hlook]
  · intro refresherFactories config hlook
    simp [CreateRefresherFromConfig, hlook]
  · intro refresherFactories config tag hlook
    simp [CreateRefresherFromConfig, hlook]
  · intro refresherFactories config hlook
    simp [CreateRefresherFromConfig, hlook]
  · intro refresherFactories config refresherType hlook hne hreg
    simp [CreateRefresherFromConfig, hlook, hne, hreg]

/-- C8 witness: a one-entry registry and concrete configurations exercising
each clause. -/
theorem refresher_registry_contract_witness :
    Register [("kubeRefresher", ⟨fun _ => .ok ⟨1⟩⟩)] "x" none =
      .panics "refresher factory cannot be nil" ∧
    Register [("kubeRefresher", ⟨fun _ => .ok ⟨1⟩⟩)] "kubeRefresher" (some ⟨fun _ => .ok ⟨2⟩⟩) =
      .panics ("refresher factory named " ++ "kubeRefresher" ++ " already registered") ∧
    CreateRefresherFromConfig [("kubeRefresher", ⟨fun _ => .ok ⟨1⟩⟩)] [] =
      .fails "refresher type cannot be empty" ∧
    CreateRefresherFromConfig [("kubeRefresher", ⟨fun _ => .ok ⟨1⟩⟩)] [("type", .nonString 0)] =
      .fails "refresher type cannot be empty" ∧
    CreateRefresherFromConfig [("kubeRefresher", ⟨fun _ => .ok ⟨1⟩⟩)] [("type", .str "")] =
      .fails "refresher type cannot be empty" ∧
    CreateRefresherFromConfig [("kubeRefresher", ⟨fun _ => .ok ⟨1⟩⟩)] [("type", .str "other")] =
      .fails ("refresher factory with name " ++ "other" ++ " not found") := by
  refine ⟨refresher_registry_contract.1 _ "x", ?_, ?_, ?_, ?_, ?_⟩
  · exact refresher_registry_contract.2.1 _ "kubeRefresher" ⟨fun _ => .ok ⟨1⟩⟩ ⟨fun _ => .ok ⟨2⟩⟩ rfl
  · exact refresher_registry_contract.2.2.1 _ [] rfl
  · exact refresher_registry_contract.2.2.2.1 _ [("type", .nonString 0)] 0 rfl
  · exact refresher_registry_contract.2.2.2.2.1 _ [("type", .str "")] rfl
  · exact refresher_registry_contract.2.2.2.2.2 _ [("type", .str "other")] "other" rfl
      (by decide) rfl

/-- C2 counterexample: an HTTP 403 response error whose body carries the
nested inner error code "SecretDisabled" but an outer code other than
"Forbidden" matches the claim's fallback signature, yet the code does not
treat it as a disabled secret: the whole `GetCertificates` call fails
instead of falling back. -/
theorem secretDisabled_fallback_counterexample :
    specSecretDisabledSignature (.responseError 403 (.parsed "OuterCode" "SecretDisabled")) = true ∧
    isSecretDisabledError (.responseError 403 (.parsed "OuterCode" "SecretDisabled")) = false ∧
    GetCertificates wrongOuterCodeClient [{ name := "cert1", version := "v1", versionHistoryLimit := 0 }] "t" "n" =
      .fails ("failed to get secret objectName:cert1, objectVersion:v1, error: " ++
        KVError.message (.responseError 403 (.parsed "OuterCode" "SecretDisabled"))) := by
  exact ⟨rfl, rfl, rfl⟩

/-- C2 amended: the `versionHistoryLimit == 0` certificate path falls back
to the certificate-metadata endpoint exactly when `GetSecret` fails with an
HTTP 403 response error whose body parses with outer code "Forbidden" AND
nested inner code "SecretDisabled"; for every other error the whole
`GetCertificates` call fails with an error. -/
theorem isSecretDisabledError_fallback :
    (∀ e, isSecretDisabledError e = true ↔
      e = .responseError 403 (.parsed "Forbidden" "SecretDisabled")) ∧
    (∀ client (keyVaultCert : KeyVaultValue) st startTime now e,
      client.getSecret keyVaultCert.name keyVaultCert.version = .error e →
      (isSecretDisabledError e = true →
        processCertificateVersion client keyVaultCert st startTime now =
          handleDisabledSecret client keyVaultCert st startTime) ∧
      (isSecretDisabledError e = false →
        processCertificateVersion client keyVaultCert st startTime now =
          .fails ("failed to get secret objectName:" ++ keyVaultCert.name ++
            ", objectVersion:" ++ keyVaultCert.version ++ ", error: " ++ e.message))) ∧
    (∀ client (keyVaultCert : KeyVaultValue) startTime now e,
      keyVaultCert.versionHistoryLimit = 0 →
      client.getSecret keyVaultCert.name keyVaultCert.version = .error e →
      isSecretDisabledError e = false →
      GetCertificates client [keyVaultCert] startTime now =
        .fails ("failed to get secret objectName:" ++ keyVaultCert.name ++
          ", objectVersion:" ++ keyVaultCert.version ++ ", error: " ++ e.message)) := by
  have hproc : ∀ client (keyVaultCert : KeyVaultValue) st startTime now e,
      client.getSecret keyVaultCert.name keyVaultCert.version = .error e →
      (isSecretDisabledError e = true →
        processCertificateVersion client keyVaultCert st startTime now =
          handleDisabledSecret client keyVaultCert st startTime) ∧
      (isSecretDisabledError e = false →
        processCertificateVersion client keyVaultCert st startTime now =
          .fails ("failed to get secret objectName:" ++ keyVaultCert.name ++
            ", objectVersion:" ++ keyVaultCert.version ++ ", error: " ++ e.message)) := by
    intro client keyVaultCert st startTime now e hsec
    constructor
    · intro hdis
      unfold processCertificateVersion
      rw [hsec]
      simp [hdis]
    · intro hdis
      unfold processCertificateVersion
      rw [hsec]
      simp [hdis]
  refine ⟨?_, hproc, ?_⟩
  · intro e
    constructor
    · intro h
      rcases e with ⟨s, b⟩ | m
      · by_cases hs : s = 403
        · subst hs
          rcases b with _ | _ | ⟨code, innerCode⟩
          · simp [isSecretDisabledError] at h
          · simp [isSecretDisabledError] at h
          · simp [isSecretDisabledError] at h
            rw [h.1, h.2]
        · simp [isSecretDisabledError, hs] at h
      · simp [isSecretDisabledError] at h
    · rintro rfl
      rfl
  · intro client keyVaultCert startTime now e hl hsec hdis
    have hpv := (hproc client keyVaultCert
      { certsMap := [], certsStatus := [], deleteCalls := [] } startTime now e hsec).2 hdis
    have hpc : processCertificate client keyVaultCert
        { certsMap := [], certsStatus := [], deleteCalls := [] } startTime now =
        .fails ("failed to get secret objectName:" ++ keyVaultCert.name ++
          ", objectVersion:" ++ keyVaultCert.version ++ ", error: " ++ e.message) := by
      unfold processCertificate
      rw [if_pos hl]
      exact hpv
    unfold GetCertificates runCertObjects
    rw [hpc]

/-- C2 amended witness: the properly signed disabled error falls back, a
plain error fails the call. -/
theorem isSecretDisabledError_fallback_witness :
    (isSecretDisabledError (.responseError 403 (.parsed "Forbidden" "SecretDisabled")) = true ↔
      KVError.responseError 403 (.parsed "Forbidden" "SecretDisabled") =
        .responseError 403 (.parsed "Forbidden" "SecretDisabled")) ∧
    GetCertificates failingClient [{ name := "cert1", version := "v1", versionHistoryLimit := 0 }] "t" "n" =
      .fails ("failed to get secret objectName:" ++ "cert1" ++
        ", objectVersion:" ++ "v1" ++ ", error: " ++ KVError.message (.other "err")) := by
  refine ⟨isSecretDisabledError_fallback.1 _, ?_⟩
  exact isSecretDisabledError_fallback.2.2 failingClient
    { name := "cert1", version := "v1", versionHistoryLimit := 0 } "t" "n" (.other "err")
    rfl rfl (by decide)

theorem runCertObjects_fails_of_first (client : AKVClient) (startTime now : String) :
    ∀ (pre : List KeyVaultValue) (c : KeyVaultValue) (post : List KeyVaultValue) (e : String),
      (∀ c' ∈ pre, ∀ st, (processCertificate client c' st startTime now).isOk = true) →
      (∀ st, processCertificate client c st startTime now = .fails e) →
      ∀ st0, runCertObjects client startTime now (pre ++ c :: post) st0 = .fails e := by
  intro pre
  induction pre with
  | nil =>
    intro c post e _ hc st0
    rw [List.nil_append]
    simp [runCertObjects, hc st0]
  | cons a l ih =>
    intro c post e hpre hc st0
    have ha := hpre a (by simp) st0
    rcases hok : processCertificate client a st0 startTime now with st1 | m | m
    · rw [List.cons_append]
      simp only [runCertObjects, hok]
      exact ih c post e (fun c' hc' st => hpre c' (by simp [hc']) st) hc st1
    · rw [hok] at ha
      simp [GoOutcome.isOk] at ha
    · rw [hok] at ha
      simp [GoOutcome.isOk] at ha

theorem runCertObjects_ok_of_all_ok (client : AKVClient) (startTime now : String) :
    ∀ certs : List KeyVaultValue,
      (∀ c ∈ certs, ∀ st, (processCertificate client c st startTime now).isOk = true) →
      ∀ st0, ∃ st', runCertObjects client startTime now certs st0 = .ok st' := by
  intro certs
  induction certs with
  | nil => exact fun _ st0 => ⟨st0, rfl⟩
  | cons a l ih =>
    intro h st0
    have ha := h a (by simp) st0
    rcases hok : processCertificate client a st0 startTime now with st1 | m | m
    · obtain ⟨st', hst'⟩ := ih (fun c hc st => h c (by simp [hc]) st) st1
      exact ⟨st', by simp only [runCertObjects, hok]; exact hst'⟩
    · rw [hok] at ha
      simp [GoOutcome.isOk] at ha
    · rw [hok] at ha
      simp [GoOutcome.isOk] at ha

theorem runKeyObjects_fails_of_first (client : AKVClient) (startTime now : String) :
    ∀ (pre : List KeyVaultValue) (c : KeyVaultValue) (post : List KeyVaultValue) (e : String),
      (∀ c' ∈ pre, ∀ st, (processKey client c' st startTime now).isOk = true) →
      (∀ st, processKey client c st startTime now = .fails e) →
      ∀ st0, runKeyObjects client startTime now (pre ++ c :: post) st0 = .fails e := by
  intro pre
  induction pre with
  | nil =>
    intro c post e _ hc st0
    rw [List.nil_append]
    simp [runKeyObjects, hc st0]
  | cons a l ih =>
    intro c post e hpre hc st0
    have ha := hpre a (by simp) st0
    rcases hok : processKey client a st0 startTime now with st1 | m | m
    · rw [List.cons_append]
      simp only [runKeyObjects, hok]
      exact ih c post e (fun c' hc' st => hpre c' (by simp [hc']) st) hc st1
    · rw [hok] at ha
      simp [GoOutcome.isOk] at ha
    · rw [hok] at ha
      simp [GoOutcome.isOk] at ha

theorem runKeyObjects_ok_of_all_ok (client : AKVClient) (startTime now : String) :
    ∀ keys : List KeyVaultValue,
      (∀ c ∈ keys, ∀ st, (processKey client c st startTime now).isOk = true) →
      ∀ st0, ∃ st', runKeyObjects client startTime now keys st0 = .ok st' := by
  intro keys
  induction keys with
  | nil => exact fun _ st0 => ⟨st0, rfl⟩
  | cons a l ih =>
    intro h st0
    have ha := h a (by simp) st0
    rcases hok : processKey client a st0 startTime now with st1 | m | m
    · obtain ⟨st', hst'⟩ := ih (fun c hc st => h c (by simp [hc]) st) st1
      exact ⟨st', by simp only [runKeyObjects, hok]; exact hst'⟩
    · rw [hok] at ha
      simp [GoOutcome.isOk] at ha
    · rw [hok] at ha
      simp [GoOutcome.isOk] at ha

/-- C7: fetching is all-or-nothing per call — if any configured object's
processing fails (the first such object in configuration order), the whole
`GetCertificates` (resp. `GetKeys`) call returns only that error, with no
partial map or status escaping; when every object processes cleanly, the
call returns a map together with a status document keyed by the material
kind. -/
theorem fetch_all_or_nothing :
    (∀ client certs (startTime now : String) pre (c : KeyVaultValue) post e,
      certs = pre ++ c :: post →
      (∀ c' ∈ pre, ∀ st, (processCertificate client c' st startTime now).isOk = true) →
      (∀ st, processCertificate client c st startTime now = .fails e) →
      GetCertificates client certs startTime now = .fails e) ∧
    (∀ client certs startTime now,
      (∀ c ∈ certs, ∀ st, (processCertificate client c st startTime now).isOk = true) →
      ∃ m props, GetCertificates client certs startTime now =
        .ok (m, getStatusMap props CertificatesStatus)) ∧
    (∀ client keys (startTime now : String) pre (c : KeyVaultValue) post e,
      keys = pre ++ c :: post →
      (∀ c' ∈ pre, ∀ st, (processKey client c' st startTime now).isOk = true) →
      (∀ st, processKey client c st startTime now = .fails e) →
      GetKeys client keys startTime now = .fails e) ∧
    (∀ client keys startTime now,
      (∀ c ∈ keys, ∀ st, (processKey client c st startTime now).isOk = true) →
      ∃ m props, GetKeys client keys startTime now =
        .ok (m, getStatusMap props KeysStatus)) := by
  refine ⟨?_, ?_, ?_, ?_⟩
  · intro client certs startTime now pre c post e hsplit hpre hc
    subst hsplit
    unfold GetCertificates
    rw [runCertObjects_fails_of_first client startTime now pre c post e hpre hc _]
  · intro client certs startTime now h
    obtain ⟨st', hst'⟩ := runCertObjects_ok_of_all_ok client startTime now certs h
      { certsMap := [], certsStatus := [], deleteCalls := [] }
    exact ⟨st'.certsMap, st'.certsStatus, by unfold GetCertificates; rw [hst']⟩
  · intro client keys startTime now pre c post e hsplit hpre hc
    subst hsplit
    unfold GetKeys
    rw [runKeyObjects_fails_of_first client startTime now pre c post e hpre hc _]
  · intro client keys startTime now h
    obtain ⟨st', hst'⟩ := runKeyObjects_ok_of_all_ok client startTime now keys h
      { keysMap := [], keysStatus := [], deleteCalls := [] }
    exact ⟨st'.keysMap, st'.keysStatus, by unfold GetKeys; rw [hst']⟩

/-- C7 witness: one healthy object then one failing object aborts the call
with the failing object's error; an all-healthy configuration succeeds. -/
theorem fetch_all_or_nothing_witness :
    GetCertificates failingClient
      [{ name := "cert1", version := "v1", versionHistoryLimit := 0 }] "t" "n" =
      .fails ("failed to get secret objectName:" ++ "cert1" ++
        ", objectVersion:" ++ "v1" ++ ", error: " ++ "err") ∧
    (∃ m props, GetCertificates healthyClient
      [{ name := "cert1", version := "v1", versionHistoryLimit := 0 }] "t" "n" =
      .ok (m, getStatusMap props CertificatesStatus)) ∧
    (∃ m props, GetKeys healthyClient
      [{ name := "key1", version := "v1", versionHistoryLimit := 0 }] "t" "n" =
      .ok (m, getStatusMap props KeysStatus)) := by
  refine ⟨?_, ?_, ?_⟩
  · exact fetch_all_or_nothing.1 failingClient _ "t" "n" []
      { name := "cert1", version := "v1", versionHistoryLimit := 0 } [] _ rfl
      (fun c' hc' => by cases hc') (fun st => rfl)
  · exact fetch_all_or_nothing.2.1 healthyClient _ "t" "n"
      (fun c hc st => by rw [List.mem_singleton] at hc; subst hc; rfl)
  · exact fetch_all_or_nothing.2.2.2 healthyClient _ "t" "n"
      (fun c hc st => by rw [List.mem_singleton] at hc; subst hc; rfl)

/-- C1 counterexample: when `GetSecret` itself succeeds but the returned
valid bundle is disabled (`versionHistoryLimit == 0` certificate path), the
code still parses the bundle and inserts the material under the MapKey with
`enabled = false` — no store delete happens and the returned map carries a
disabled MapKey with material, contradicting the claim. -/
theorem disabled_material_in_map_counterexample :
    disabledSecretOkClient.getSecret "cert1" "v1" = .ok (pemBundle false) ∧
    (pemBundle false).attributes.bind (·.enabled) = some false ∧
    isValidSecretBundle (pemBundle false) = true ∧
    GetCertificates disabledSecretOkClient
      [{ name := "cert1", version := "v1", versionHistoryLimit := 0 }] "t" "n" =
      .ok ([({ name := "cert1", version := "v1", enabled := false }, [{ certId := 0 }])],
        getStatusMap [{ name := "cert1", version := "v1", enabled := "false", lastRefreshed := "n" }]
          CertificatesStatus) := by
  exact ⟨rfl, rfl, rfl, rfl⟩

theorem mem_mapSet {α : Type} (m : List (KMPMapKey × α)) (k : KMPMapKey) (v : α) :
    ∀ p ∈ mapSet m k v, p ∈ m ∨ p.1 = k := by
  intro p hp
  unfold mapSet at hp
  by_cases hany : m.any (fun q => q.1 = k) = true
  · rw [if_pos hany] at hp
    rcases List.mem_map.mp hp with ⟨q, hq, hmap⟩
    by_cases hqk : q.1 = k
    · right
      rw [← hmap, if_pos hqk]
    · left
      rw [← hmap, if_neg hqk]
      exact hq
  · rw [if_neg hany] at hp
    rcases List.mem_append.mp hp with h | h
    · exact Or.inl h
    · right
      rw [List.mem_singleton.mp h]

theorem handleDisabledSecret_certsMap (client : AKVClient) (keyVaultCert : KeyVaultValue)
    (st : CertFetchState) (startTime : String) (st' : CertFetchState)
    (h : handleDisabledSecret client keyVaultCert st startTime = .ok st') :
    st'.certsMap = st.certsMap := by
  unfold handleDisabledSecret at h
  split at h
  · cases h
  · split at h
    · cases h
      rfl
    · cases h
      rfl

theorem processCertificateVersion_key_invariant (client : AKVClient)
    (hH : ∀ name ver sb, client.getSecret name ver = .ok sb →
      isValidSecretBundle sb = true → sb.attributes.bind (·.enabled) = some true)
    (keyVaultCert : KeyVaultValue) (st : CertFetchState) (startTime now : String)
    (st' : CertFetchState)
    (h : processCertificateVersion client keyVaultCert st startTime now = .ok st') :
    ∀ p ∈ st'.certsMap, p ∈ st.certsMap ∨ p.1.enabled = true := by
  unfold processCertificateVersion at h
  split at h
  next e heq =>
    split at h
    · cases h
    · intro p hp
      rw [handleDisabledSecret_certsMap client keyVaultCert st startTime st' h] at hp
      exact Or.inl hp
  next sb heq =>
    split at h
    · cases h
      exact fun p hp => Or.inl hp
    next hvalid =>
      dsimp only at h
      split at h
      · cases h
      · cases h
      next certResult certProperty heq2 =>
        cases h
        intro p hp
        simp only at hp
        rcases mem_mapSet st.certsMap _ certResult p hp with h1 | h1
        · exact Or.inl h1
        · right
          rw [h1]
          have hval : isValidSecretBundle sb = true := by
            simpa using hvalid
          rw [hH keyVaultCert.name keyVaultCert.version sb heq hval]
          rfl

theorem certVersionsLoop_key_invariant (client : AKVClient) (keyVaultCert : KeyVaultValue)
    (startTime now : String) :
    ∀ (vs : KeyVaultValueVersionHistory) (st st' : CertFetchState),
      certVersionsLoop client keyVaultCert startTime now vs st = .ok st' →
      ∀ p ∈ st'.certsMap, p ∈ st.certsMap ∨ p.1.enabled = true := by
  intro vs
  induction vs with
  | nil =>
    intro st st' h
    cases h
    exact fun p hp => Or.inl hp
  | cons ver rest ih =>
    intro st st' h
    unfold certVersionsLoop at h
    split at h
    next hdis =>
      intro p hp
      rcases ih _ st' h p hp with h1 | h1
      · exact Or.inl h1
      · exact Or.inr h1
    next hen =>
      split at h
      · cases h
      next sb heq =>
        split at h
        · exact ih st st' h
        next hvalid =>
          dsimp only at h
          split at h
          · cases h
          · cases h
          next certResult certProperty heq2 =>
            intro p hp
            rcases ih _ st' h p hp with h1 | h1
            · rcases mem_mapSet st.certsMap _ certResult p h1 with h2 | h2
              · exact Or.inl h2
              · right
                rw [h2]
                simpa using hen
            · exact Or.inr h1

theorem processCertificateVersions_key_invariant (client : AKVClient)
    (keyVaultCert : KeyVaultValue) (st : CertFetchState) (startTime now : String)
    (st' : CertFetchState)
    (h : processCertificateVersions client keyVaultCert st startTime now = .ok st') :
    ∀ p ∈ st'.certsMap, p ∈ st.certsMap ∨ p.1.enabled = true := by
  unfold processCertificateVersions at h
  split at h
  · cases h
  next vh heq =>
    split at h
    · cases h
    next vh' heq2 =>
      split at h
      · cases h
        exact fun p hp => Or.inl hp
      · exact certVersionsLoop_key_invariant client keyVaultCert startTime now vh' st st' h

theorem processCertificate_key_invariant (client : AKVClient)
    (hH : ∀ name ver sb, client.getSecret name ver = .ok sb →
      isValidSecretBundle sb = true → sb.attributes.bind (·.enabled) = some true)
    (keyVaultCert : KeyVaultValue) (st : CertFetchState) (startTime now : String)
    (st' : CertFetchState)
    (h : processCertificate client keyVaultCert st startTime now = .ok st') :
    ∀ p ∈ st'.certsMap, p ∈ st.certsMap ∨ p.1.enabled = true := by
  unfold processCertificate at h
  split at h
  · exact processCertificateVersion_key_invariant client hH keyVaultCert st startTime now st' h
  · exact processCertificateVersions_key_invariant client keyVaultCert st startTime now st' h

theorem runCertObjects_key_invariant (client : AKVClient)
    (hH : ∀ name ver sb, client.getSecret name ver = .ok sb →
      isValidSecretBundle sb = true → sb.attributes.bind (·.enabled) = some true)
    (startTime now : String) :
    ∀ (certs : List KeyVaultValue) (st0 st' : CertFetchState),
      runCertObjects client startTime now certs st0 = .ok st' →
      ∀ p ∈ st'.certsMap, p ∈ st0.certsMap ∨ p.1.enabled = true := by
  intro certs
  induction certs with
  | nil =>
    intro st0 st' h
    cases h
    exact fun p hp => Or.inl hp
  | cons c cs ih =>
    intro st0 st' h
    unfold runCertObjects at h
    split at h
    · cases h
    · cases h
    next st1 heq =>
      intro p hp
      rcases ih st1 st' h p hp with h1 | h1
      · exact processCertificate_key_invariant client hH c st0 startTime now st1 heq p h1
      · exact Or.inr h1

theorem processKeyVersion_key_invariant (client : AKVClient) (keyVaultKey : KeyVaultValue)
    (st : KeyFetchState) (startTime now : String) (st' : KeyFetchState)
    (h : processKeyVersion client keyVaultKey st startTime now = .ok st') :
    ∀ p ∈ st'.keysMap, p ∈ st.keysMap ∨ p.1.enabled = true := by
  unfold processKeyVersion at h
  split at h
  · cases h
  next kb heq =>
    split at h
    · cases h
      exact fun p hp => Or.inl hp
    next hvalid =>
      dsimp only at h
      split at h
      · cases h
      next kid heqkid =>
        split at h
        next hdis =>
          cases h
          exact fun p hp => Or.inl hp
        next hen =>
          split at h
          · cases h
          · cases h
          next publicKey heqpk =>
            cases h
            intro p hp
            rcases mem_mapSet st.keysMap _ publicKey p hp with h1 | h1
            · exact Or.inl h1
            · right
              rw [h1]
              simpa using hen

theorem keyVersionsLoop_key_invariant (client : AKVClient) (keyVaultKey : KeyVaultValue)
    (startTime now : String) :
    ∀ (vs : KeyVaultValueVersionHistory) (st st' : KeyFetchState),
      keyVersionsLoop client keyVaultKey startTime now vs st = .ok st' →
      ∀ p ∈ st'.keysMap, p ∈ st.keysMap ∨ p.1.enabled = true := by
  intro vs
  induction vs with
  | nil =>
    intro st st' h
    cases h
    exact fun p hp => Or.inl hp
  | cons ver rest ih =>
    intro st st' h
    unfold keyVersionsLoop at h
    split at h
    next hdis =>
      intro p hp
      rcases ih _ st' h p hp with h1 | h1
      · exact Or.inl h1
      · exact Or.inr h1
    next hen =>
      split at h
      · cases h
      next kb heq =>
        split at h
        · exact ih st st' h
        next hvalid =>
          split at h
          · cases h
          · cases h
          next publicKey heqpk =>
            intro p hp
            rcases ih _ st' h p hp with h1 | h1
            · rcases mem_mapSet st.keysMap _ publicKey p h1 with h2 | h2
              · exact Or.inl h2
              · right
                rw [h2]
                simpa using hen
            · exact Or.inr h1

theorem processKeyVersions_key_invariant (client : AKVClient) (keyVaultKey : KeyVaultValue)
    (st : KeyFetchState) (startTime now : String) (st' : KeyFetchState)
    (h : processKeyVersions client keyVaultKey st startTime now = .ok st') :
    ∀ p ∈ st'.keysMap, p ∈ st.keysMap ∨ p.1.enabled = true := by
  unfold processKeyVersions at h
  split at h
  · cases h
  next vh heq =>
    split at h
    · cases h
    next vh' heq2 =>
      split at h
      · cases h
        exact fun p hp => Or.inl hp
      · exact keyVersionsLoop_key_invariant client keyVaultKey startTime now vh' st st' h

theorem processKey_key_invariant (client : AKVClient) (keyVaultKey : KeyVaultValue)
    (st : KeyFetchState) (startTime now : String) (st' : KeyFetchState)
    (h : processKey client keyVaultKey st startTime now = .ok st') :
    ∀ p ∈ st'.keysMap, p ∈ st.keysMap ∨ p.1.enabled = true := by
  unfold processKey at h
  split at h
  · exact processKeyVersion_key_invariant client keyVaultKey st startTime now st' h
  · exact processKeyVersions_key_invariant client keyVaultKey st startTime now st' h

theorem runKeyObjects_key_invariant (client : AKVClient) (startTime now : String) :
    ∀ (keys : List KeyVaultValue) (st0 st' : KeyFetchState),
      runKeyObjects client startTime now keys st0 = .ok st' →
      ∀ p ∈ st'.keysMap, p ∈ st0.keysMap ∨ p.1.enabled = true := by
  intro keys
  induction keys with
  | nil =>
    intro st0 st' h
    cases h
    exact fun p hp => Or.inl hp
  | cons c cs ih =>
    intro st0 st' h
    unfold runKeyObjects at h
    split at h
    · cases h
    · cases h
    next st1 heq =>
      intro p hp
      rcases ih st1 st' h p hp with h1 | h1
      · exact processKey_key_invariant client c st0 startTime now st1 heq p h1
      · exact Or.inr h1

theorem certVersionsLoop_mono (client : AKVClient) (keyVaultCert : KeyVaultValue)
    (startTime now : String) :
    ∀ (vs : KeyVaultValueVersionHistory) (st st' : CertFetchState),
      certVersionsLoop client keyVaultCert startTime now vs st = .ok st' →
      (∀ x ∈ st.certsStatus, x ∈ st'.certsStatus) ∧
      (∀ k ∈ st.deleteCalls, k ∈ st'.deleteCalls) := by
  intro vs
  induction vs with
  | nil =>
    intro st st' h
    cases h
    exact ⟨fun x hx => hx, fun k hk => hk⟩
  | cons ver rest ih =>
    intro st st' h
    unfold certVersionsLoop at h
    split at h
    next hdis =>
      have hm := ih _ st' h
      exact ⟨fun x hx => hm.1 x (List.mem_append_left _ hx),
        fun k hk => hm.2 k (List.mem_append_left _ hk)⟩
    next hen =>
      split at h
      · cases h
      next sb heq =>
        split at h
        · exact ih st st' h
        next hvalid =>
          dsimp only at h
          split at h
          · cases h
          · cases h
          next certResult certProperty heq2 =>
            have hm := ih _ st' h
            exact ⟨fun x hx => hm.1 x (List.mem_append_left _ hx), hm.2⟩

theorem certVersionsLoop_disabled_tracked (client : AKVClient)
    (keyVaultCert : KeyVaultValue) (startTime now : String) :
    ∀ (vs : KeyVaultValueVersionHistory) (st st' : CertFetchState),
      certVersionsLoop client keyVaultCert startTime now vs st = .ok st' →
      ∀ ver ∈ vs, ver.enabled = false →
        getStatusProperty keyVaultCert.name ver.version startTime false ∈ st'.certsStatus ∧
        ({ name := keyVaultCert.name, version := ver.version, enabled := false } : KMPMapKey) ∈
          st'.deleteCalls := by
  intro vs
  induction vs with
  | nil =>
    intro st st' h ver hver
    cases hver
  | cons v rest ih =>
    intro st st' h ver hver hdis
    unfold certVersionsLoop at h
    rcases List.mem_cons.mp hver with rfl | hmem
    · rw [if_pos hdis] at h
      have hm := certVersionsLoop_mono client keyVaultCert startTime now rest _ st' h
      constructor
      · exact hm.1 _ (List.mem_append_right _ (List.mem_singleton.mpr rfl))
      · exact hm.2 _ (List.mem_append_right _ (List.mem_singleton.mpr rfl))
    · split at h
      · exact ih _ st' h ver hmem hdis
      next hen =>
        split at h
        · cases h
        next sb heq =>
          split at h
          · exact ih st st' h ver hmem hdis
          next hvalid =>
            dsimp only at h
            split at h
            · cases h
            · cases h
            next certResult certProperty heq2 =>
              exact ih _ st' h ver hmem hdis

theorem keyVersionsLoop_mono (client : AKVClient) (keyVaultKey : KeyVaultValue)
    (startTime now : String) :
    ∀ (vs : KeyVaultValueVersionHistory) (st st' : KeyFetchState),
      keyVersionsLoop client keyVaultKey startTime now vs st = .ok st' →
      (∀ x ∈ st.keysStatus, x ∈ st'.keysStatus) ∧
      (∀ k ∈ st.deleteCalls, k ∈ st'.deleteCalls) := by
  intro vs
  induction vs with
  | nil =>
    intro st st' h
    cases h
    exact ⟨fun x hx => hx, fun k hk => hk⟩
  | cons ver rest ih =>
    intro st st' h
    unfold keyVersionsLoop at h
    split at h
    next hdis =>
      have hm := ih _ st' h
      exact ⟨fun x hx => hm.1 x (List.mem_append_left _ hx),
        fun k hk => hm.2 k (List.mem_append_left _ hk)⟩
    next hen =>
      split at h
      · cases h
      next kb heq =>
        split at h
        · exact ih st st' h
        next hvalid =>
          split at h
          · cases h
          · cases h
          next publicKey heqpk =>
            have hm := ih _ st' h
            exact ⟨fun x hx => hm.1 x (List.mem_append_left _ hx), hm.2⟩

theorem keyVersionsLoop_disabled_tracked (client : AKVClient)
    (keyVaultKey : KeyVaultValue) (startTime now : String) :
    ∀ (vs : KeyVaultValueVersionHistory) (st st' : KeyFetchState),
      keyVersionsLoop client keyVaultKey startTime now vs st = .ok st' →
      ∀ ver ∈ vs, ver.enabled = false →
        getStatusProperty keyVaultKey.name ver.version startTime false ∈ st'.keysStatus ∧
        ({ name := keyVaultKey.name, version := ver.version, enabled := false } : KMPMapKey) ∈
          st'.deleteCalls := by
  intro vs
  induction vs with
  | nil =>
    intro st st' h ver hver
    cases hver
  | cons v rest ih =>
    intro st st' h ver hver hdis
    unfold keyVersionsLoop at h
    rcases List.mem_cons.mp hver with rfl | hmem
    · rw [if_pos hdis] at h
      have hm := keyVersionsLoop_mono client keyVaultKey startTime now rest _ st' h
      constructor
      · exact hm.1 _ (List.mem_append_right _ (List.mem_singleton.mpr rfl))
      · exact hm.2 _ (List.mem_append_right _ (List.mem_singleton.mpr rfl))
    · split at h
      · exact ih _ st' h ver hmem hdis
      next hen =>
        split at h
        · cases h
        next kb heq =>
          split at h
          · exact ih st st' h ver hmem hdis
          next hvalid =>
            split at h
            · cases h
            · cases h
            next publicKey heqpk =>
              exact ih _ st' h ver hmem hdis

theorem processCertificateVersion_disabled_fallback (client : AKVClient)
    (keyVaultCert : KeyVaultValue) (st : CertFetchState) (startTime now : String)
    (e : KVError) (cb : CertificateBundle)
    (hsec : client.getSecret keyVaultCert.name keyVaultCert.version = .error e)
    (hdis : isSecretDisabledError e = true)
    (hcb : client.getCertificate keyVaultCert.name keyVaultCert.version = .ok cb)
    (hvalid : isValidCertificateBundle cb = true)
    (hen : cb.attributes.bind (·.enabled) = some false) :
    processCertificateVersion client keyVaultCert st startTime now = .ok
      { st with
        certsStatus := st.certsStatus ++
          [getStatusProperty keyVaultCert.name (getObjectVersion (cb.id.getD ""))
            startTime false]
        deleteCalls := st.deleteCalls ++
          [{ name := keyVaultCert.name, version := getObjectVersion (cb.id.getD "")
             enabled := false }] } := by
  unfold processCertificateVersion
  simp only [hsec]
  rw [if_neg (by simp [hdis])]
  unfold handleDisabledSecret
  simp only [hcb]
  rw [if_neg (by simp [hvalid])]
  simp [hen]

theorem processKeyVersion_disabled (client : AKVClient) (keyVaultKey : KeyVaultValue)
    (st : KeyFetchState) (startTime now : String) (kb : KeyBundle) (kid : String)
    (hkey : client.getKey keyVaultKey.name keyVaultKey.version = .ok kb)
    (hvalid : isValidKeyBundle kb = true)
    (hkid : kb.key.bind (·.kid) = some kid)
    (hen : kb.attributes.bind (·.enabled) = some false) :
    processKeyVersion client keyVaultKey st startTime now = .ok
      { st with
        keysStatus := st.keysStatus ++
          [getStatusProperty keyVaultKey.name (getObjectVersion kid) startTime false]
        deleteCalls := st.deleteCalls ++
          [{ name := keyVaultKey.name, version := getObjectVersion kid
             enabled := false }] } := by
  unfold processKeyVersion
  simp only [hkey]
  rw [if_neg (by simp [hvalid])]
  simp only [hkid]
  rw [if_pos (by simp [hen])]
  simp [hen]

/-- C1 (amended): wherever a disabled version is surfaced the way the vault
API reports disabled material — a disabled entry of the trimmed version
history (certificates and keys), the SecretDisabled-error fallback yielding
a valid disabled certificate bundle (`versionHistoryLimit == 0`
certificates), or a valid disabled key bundle (`versionHistoryLimit == 0`
keys) — the provider records a disabled status entry, issues a Shared Store
delete of the MapKey `{name, version, enabled := false}`, and adds nothing
to the material map; consequently, provided every successful `GetSecret`
response that passes validation is enabled, no MapKey with
`enabled = false` ever maps to material in the map returned by
`GetCertificates`, and unconditionally none does in the map returned by
`GetKeys`. -/
theorem disabled_version_reconciliation :
    (∀ client certs (startTime now : String) m sd,
      (∀ name ver sb, AKVClient.getSecret client name ver = .ok sb →
        isValidSecretBundle sb = true → sb.attributes.bind (·.enabled) = some true) →
      GetCertificates client certs startTime now = .ok (m, sd) →
      ∀ p ∈ m, p.1.enabled = true) ∧
    (∀ client keys (startTime now : String) m sd,
      GetKeys client keys startTime now = .ok (m, sd) →
      ∀ p ∈ m, p.1.enabled = true) ∧
    (∀ client (keyVaultCert : KeyVaultValue) (startTime now : String) vs st st',
      certVersionsLoop client keyVaultCert startTime now vs st = .ok st' →
      (∀ ver ∈ vs, ver.enabled = false →
        getStatusProperty keyVaultCert.name ver.version startTime false ∈ st'.certsStatus ∧
        ({ name := keyVaultCert.name, version := ver.version, enabled := false } : KMPMapKey) ∈
          st'.deleteCalls) ∧
      (∀ p ∈ st'.certsMap, p ∈ st.certsMap ∨ p.1.enabled = true)) ∧
    (∀ client (keyVaultKey : KeyVaultValue) (startTime now : String) vs st st',
      keyVersionsLoop client keyVaultKey startTime now vs st = .ok st' →
      (∀ ver ∈ vs, ver.enabled = false →
        getStatusProperty keyVaultKey.name ver.version startTime false ∈ st'.keysStatus ∧
        ({ name := keyVaultKey.name, version := ver.version, enabled := false } : KMPMapKey) ∈
          st'.deleteCalls) ∧
      (∀ p ∈ st'.keysMap, p ∈ st.keysMap ∨ p.1.enabled = true)) ∧
    (∀ client (keyVaultCert : KeyVaultValue) st (startTime now : String) e cb,
      client.getSecret keyVaultCert.name keyVaultCert.version = .error e →
      isSecretDisabledError e = true →
      client.getCertificate keyVaultCert.name keyVaultCert.version = .ok cb →
      isValidCertificateBundle cb = true →
      cb.attributes.bind (·.enabled) = some false →
      processCertificateVersion client keyVaultCert st startTime now = .ok
        { st with
          certsStatus := st.certsStatus ++
            [getStatusProperty keyVaultCert.name (getObjectVersion (cb.id.getD ""))
              startTime false]
          deleteCalls := st.deleteCalls ++
            [{ name := keyVaultCert.name, version := getObjectVersion (cb.id.getD "")
               enabled := false }] }) ∧
    (∀ client (keyVaultKey : KeyVaultValue) st (startTime now : String) kb kid,
      client.getKey keyVaultKey.name keyVaultKey.version = .ok kb →
      isValidKeyBundle kb = true →
      kb.key.bind (·.kid) = some kid →
      kb.attributes.bind (·.enabled) = some false →
      processKeyVersion client keyVaultKey st startTime now = .ok
        { st with
          keysStatus := st.keysStatus ++
            [getStatusProperty keyVaultKey.name (getObjectVersion kid) startTime false]
          deleteCalls := st.deleteCalls ++
            [{ name := keyVaultKey.name, version := getObjectVersion kid
               enabled := false }] }) := by
  refine ⟨?_, ?_, ?_, ?_, ?_, ?_⟩
  · intro client certs startTime now m sd hH hok
    unfold GetCertificates at hok
    split at hok
    · cases hok
    · cases hok
    next st' heq =>
      cases hok
      intro p hp
      rcases runCertObjects_key_invariant client hH startTime now certs _ st' heq p hp with h1 | h1
      · cases h1
      · exact h1
  · intro client keys startTime now m sd hok
    unfold GetKeys at hok
    split at hok
    · cases hok
    · cases hok
    next st' heq =>
      cases hok
      intro p hp
      rcases runKeyObjects_key_invariant client startTime now keys _ st' heq p hp with h1 | h1
      · cases h1
      · exact h1
  · intro client keyVaultCert startTime now vs st st' h
    exact ⟨fun ver hver hdis =>
        certVersionsLoop_disabled_tracked client keyVaultCert startTime now vs st st' h ver hver hdis,
      certVersionsLoop_key_invariant client keyVaultCert startTime now vs st st' h⟩
  · intro client keyVaultKey startTime now vs st st' h
    exact ⟨fun ver hver hdis =>
        keyVersionsLoop_disabled_tracked client keyVaultKey startTime now vs st st' h ver hver hdis,
      keyVersionsLoop_key_invariant client keyVaultKey startTime now vs st st' h⟩
  · intro client keyVaultCert st startTime now e cb hsec hdis hcb hvalid hen
    exact processCertificateVersion_disabled_fallback client keyVaultCert st startTime now
      e cb hsec hdis hcb hvalid hen
  · intro client keyVaultKey st startTime now kb kid hkey hvalid hkid hen
    exact processKeyVersion_disabled client keyVaultKey st startTime now kb kid
      hkey hvalid hkid hen

/-- C1 amended witness: a healthy fetch yields only enabled MapKeys, for
certificates (under the enabled-secrets assumption, discharged for the
concrete client) and for keys unconditionally. -/
theorem disabled_version_reconciliation_witness :
    (∀ p ∈ [(({ name := "cert1", version := "v1", enabled := true } : KMPMapKey),
        [({ certId := 0 } : X509Cert)])], (Prod.fst p).enabled = true) ∧
    (∀ p ∈ [(({ name := "key1", version := "v1", enabled := true } : KMPMapKey),
        ({ keyId := 7 } : PublicKey))], (Prod.fst p).enabled = true) := by
  constructor
  · exact disabled_version_reconciliation.1 healthyClient
      [{ name := "cert1", version := "v1", versionHistoryLimit := 0 }] "t" "n"
      [({ name := "cert1", version := "v1", enabled := true }, [{ certId := 0 }])]
      (getStatusMap [{ name := "cert1", version := "v1", enabled := "true", lastRefreshed := "n" }]
        CertificatesStatus)
      (fun name ver sb h _ => by cases h; rfl) rfl
  · exact disabled_version_reconciliation.2.1 healthyClient
      [{ name := "key1", version := "v1", versionHistoryLimit := 0 }] "t" "n"
      [({ name := "key1", version := "v1", enabled := true }, { keyId := 7 })]
      (getStatusMap [{ name := "key1", version := "v1", enabled := "true", lastRefreshed := "n" }]
        KeysStatus) rfl
